import Mathlib

/-!
# Capacitated pickup and delivery with time windows: model builder, solution
tracker and result extractor of `cmd/main.go`

The program drives an external routing solver.  The solver itself is not part
of the source; its index manager, routing model and assignments enter this
development as parameters, and the calls that `setup` makes on the solver are
recorded, in order, as a list of `Call`s.  The callback `p` and `printSolution`
are embedded as functions on explicit state.
-/

namespace Cpdptw

/-! ## Data model -/

/-- Problem data, the struct `DataModelCPDPTW`.  Go slices are lists, `int` and
`int64` values are integers. -/
structure DataModelCPDPTW where
  timeMatrix : List (List Int)
  timeWindows : List (List Int)
  pickupDeliveries : List (List Int)
  allowedVehicles : List (List Int)
  vehicleCapacities : List Int
  demands : List Int
  depot : Int

/-- The package-level travel-time matrix. -/
def timeMatrix : List (List Int) :=
  [[0, 6, 9, 8, 7, 3, 6, 2, 3, 2, 6, 6, 4, 4, 5, 9, 7],
   [6, 0, 8, 3, 2, 6, 8, 4, 8, 8, 13, 7, 5, 8, 12, 10, 14],
   [9, 8, 0, 11, 10, 6, 3, 9, 5, 8, 4, 15, 14, 13, 9, 18, 9],
   [8, 3, 11, 0, 1, 7, 10, 6, 10, 10, 14, 6, 7, 9, 14, 6, 16],
   [7, 2, 10, 1, 0, 6, 9, 4, 8, 9, 13, 4, 6, 8, 12, 8, 14],
   [3, 6, 6, 7, 6, 0, 2, 3, 2, 2, 7, 9, 7, 7, 6, 12, 8],
   [6, 8, 3, 10, 9, 2, 0, 6, 2, 5, 4, 12, 10, 10, 6, 15, 5],
   [2, 4, 9, 6, 4, 3, 6, 0, 4, 4, 8, 5, 4, 3, 7, 8, 10],
   [3, 8, 5, 10, 8, 2, 2, 4, 0, 3, 4, 9, 8, 7, 3, 13, 6],
   [2, 8, 8, 10, 9, 2, 5, 4, 3, 0, 4, 6, 5, 4, 3, 9, 5],
   [6, 13, 4, 14, 13, 7, 4, 8, 4, 4, 0, 10, 9, 8, 4, 13, 4],
   [6, 7, 15, 6, 4, 9, 12, 5, 9, 6, 10, 0, 1, 3, 7, 3, 10],
   [4, 5, 14, 7, 6, 7, 10, 4, 8, 5, 9, 1, 0, 2, 6, 4, 8],
   [4, 8, 13, 9, 8, 7, 10, 3, 7, 4, 8, 3, 2, 0, 4, 5, 6],
   [5, 12, 9, 14, 12, 6, 6, 7, 3, 3, 4, 7, 6, 4, 0, 9, 2],
   [9, 10, 18, 6, 8, 12, 15, 8, 13, 9, 13, 3, 4, 5, 9, 0, 9],
   [7, 14, 9, 16, 14, 8, 5, 10, 6, 5, 4, 10, 8, 6, 2, 9, 0]]

/-- The package-level time windows, one `[earliest, latest]` row per location,
row 0 being the depot. -/
def timeWindows : List (List Int) :=
  [[0, 5], [7, 12], [10, 15], [16, 18], [10, 13], [0, 5], [5, 10], [0, 4],
   [5, 10], [0, 3], [10, 16], [10, 15], [0, 5], [5, 10], [7, 8], [10, 15],
   [11, 15]]

/-- The local `solvablePickupDeliveries` of `setup`. -/
def solvablePickupDeliveries : List (List Int) :=
  [[6, 2], [9, 14], [5, 10]]

/-- The local `allowedVehicles` of `setup`. -/
def allowedVehicles : List (List Int) :=
  [[0, 1, 2, 3], [], [0, 1, 2, 3], [], [], [0, 1, 2, 3], [0, 1, 2, 3], [], [],
   [0, 1, 2, 3], [0, 1, 2, 3], [], [], [], [0, 1, 2, 3], [], []]

/-- The data instance that `setup` builds. -/
def data : DataModelCPDPTW where
  timeMatrix := timeMatrix
  timeWindows := timeWindows
  pickupDeliveries := solvablePickupDeliveries
  allowedVehicles := allowedVehicles
  vehicleCapacities := [15, 15, 15, 15]
  demands := [0, 0, -1, 0, 0, 1, 1, 0, 0, 1, -1, 0, 0, 0, -1, 0, 0]
  depot := 0

/-! ## The solver interface -/

/-- The index manager of the solver: the two translations between location ids
and routing indices.  Its implementation is outside the source, so it is a
parameter of everything below. -/
structure RoutingIndexManager where
  NodeToIndex : Int → Int
  IndexToNode : Int → Int

/-- What the program reads off an assignment (or, when the assignment is nil,
off the live variables), per routing index: the value of `NextVar`, the bounds
of the Time cumulative variable, the bounds of the Time slack variable and the
value of the Capacity cumulative variable. -/
structure Assignment where
  NextVar : Int → Int
  TimeMin : Int → Int
  TimeMax : Int → Int
  SlackMin : Int → Int
  SlackMax : Int → Int
  Capacity : Int → Int

/-- The routing model of the solver, as far as the program queries it:
`CostVar` is the current value of `routing.CostVar()`, and `live` is what the
live variables answer when no assignment is passed. -/
structure RoutingModel where
  Size : Int
  Start : Int → Int
  End : Int → Int
  IsStart : Int → Bool
  IsEnd : Int → Bool
  CostVar : Int
  live : Assignment

/-- The two cumulative dimensions that `setup` creates. -/
inductive Dimension where
  | Time
  | Capacity
  deriving DecidableEq

/-- One call that `setup` makes on the solver.  Variables are named by their
routing index: `SetRange i lo hi` is `timeDimension.CumulVar(i).SetRange(lo, hi)`,
`AddToAssignment i` adds `timeDimension.SlackVar(i)`,
`AddVariableMinimizedByFinalizer i` names `timeDimension.CumulVar(i)`,
`MakeEquality a b` is the added constraint `VehicleVar(a) = VehicleVar(b)` and
`MakeLessOrEqual a b` the added constraint `CumulVar(a) <= CumulVar(b)` of the
Time dimension. -/
inductive Call where
  | AddDisjunction (indices : List Int) (penalty : Int)
  | RegisterTransitCallback
  | SetArcCostEvaluatorOfAllVehicles
  | AddDimension (slackMax capacity : Int) (fixStartCumulToZero : Bool) (name : Dimension)
  | RegisterUnaryTransitCallback
  | AddDimensionWithVehicleCapacity (slackMax : Int) (capacities : List Int)
      (fixStartCumulToZero : Bool) (name : Dimension)
  | SetRange (index lo hi : Int)
  | AddToAssignment (index : Int)
  | AddVariableMinimizedByFinalizer (index : Int)
  | AddPickupAndDelivery (pickup delivery : Int)
  | MakeEquality (a b : Int)
  | MakeLessOrEqual (a b : Int)
  | SetAllowedVehiclesForIndex (vehicles : List Int) (index : Int)
  | AddAtSolutionCallback
  deriving DecidableEq

/-! ## `setup` -/

/-- The loop `for i := lo; i < lo + count; i++ { body }`, collecting the calls
of every round; a failing round fails the loop. -/
def forRange (body : Nat → Option (List Call)) : Nat → Nat → Option (List Call)
  | _, 0 => some []
  | i, count + 1 =>
    match body i with
    | none => none
    | some here =>
      match forRange body (i + 1) count with
      | none => none
      | some rest => some (here ++ rest)

/-- The loop `for _, request := range requests { body }`. -/
def forEach (body : List Int → Option (List Call)) : List (List Int) → Option (List Call)
  | [] => some []
  | request :: requests =>
    match body request with
    | none => none
    | some here =>
      match forEach body requests with
      | none => none
      | some rest => some (here ++ rest)

/-- Body of the loop "Allow dropping stops". -/
def disjunctionBody (manager : RoutingIndexManager) (i : Nat) : Option (List Call) :=
  some [Call.AddDisjunction [manager.NodeToIndex i] 1000]

/-- Body of the loop adding the time window of location `i`. -/
def timeWindowBody (manager : RoutingIndexManager) (d : DataModelCPDPTW) (i : Nat) :
    Option (List Call) :=
  match d.timeWindows[i]? with
  | none => none
  | some window =>
    match window[0]?, window[1]? with
    | some lo, some hi =>
      some [Call.SetRange (manager.NodeToIndex i) lo hi,
            Call.AddToAssignment (manager.NodeToIndex i)]
    | _, _ => none

/-- Body of the loop adding the depot window at the start of vehicle `i`. -/
def startWindowBody (routing : RoutingModel) (d : DataModelCPDPTW) (i : Nat) :
    Option (List Call) :=
  match d.timeWindows[0]? with
  | none => none
  | some window =>
    match window[0]?, window[1]? with
    | some lo, some hi =>
      some [Call.SetRange (routing.Start i) lo hi,
            Call.AddToAssignment (routing.Start i)]
    | _, _ => none

/-- Body of the loop "Instantiate route start and end times". -/
def finalizerBody (routing : RoutingModel) (i : Nat) : Option (List Call) :=
  some [Call.AddVariableMinimizedByFinalizer (routing.Start i),
        Call.AddVariableMinimizedByFinalizer (routing.End i)]

/-- Body of the loop "Define Transportation Requests". -/
def requestBody (manager : RoutingIndexManager) (request : List Int) : Option (List Call) :=
  match request[0]?, request[1]? with
  | some pickup, some delivery =>
    some [Call.AddPickupAndDelivery (manager.NodeToIndex pickup) (manager.NodeToIndex delivery),
          Call.MakeEquality (manager.NodeToIndex pickup) (manager.NodeToIndex delivery),
          Call.MakeLessOrEqual (manager.NodeToIndex pickup) (manager.NodeToIndex delivery)]
  | _, _ => none

/-- Body of the loop "Define Allowed Vehicles per node". -/
def allowedVehiclesBody (manager : RoutingIndexManager) (d : DataModelCPDPTW) (i : Nat) :
    Option (List Call) :=
  match d.allowedVehicles[i]? with
  | none => none
  | some vehicles =>
    if vehicles.length = 0 ∨ vehicles.length = d.vehicleCapacities.length then
      some []
    else
      some [Call.SetAllowedVehiclesForIndex vehicles (manager.NodeToIndex i)]

/-- The body of `setup` from the creation of the routing model on, for any
data instance: the calls made on the solver, in program order, or `none` when
an index expression is out of range. -/
def setupWith (manager : RoutingIndexManager) (routing : RoutingModel)
    (d : DataModelCPDPTW) : Option (List Call) :=
  match forRange (disjunctionBody manager) 1 (d.timeMatrix.length - 1) with
  | none => none
  | some disjunctions =>
    match forRange (timeWindowBody manager d) 1 (d.timeWindows.length - 1) with
    | none => none
    | some windows =>
      match forRange (startWindowBody routing d) 0 d.vehicleCapacities.length with
      | none => none
      | some starts =>
        match forRange (finalizerBody routing) 0 d.vehicleCapacities.length with
        | none => none
        | some finalizers =>
          match forEach (requestBody manager) d.pickupDeliveries with
          | none => none
          | some requests =>
            match forRange (allowedVehiclesBody manager d) 0 d.allowedVehicles.length with
            | none => none
            | some eligibility =>
              some (disjunctions
                ++ [Call.RegisterTransitCallback,
                    Call.SetArcCostEvaluatorOfAllVehicles,
                    Call.AddDimension 30 360 false Dimension.Time,
                    Call.RegisterUnaryTransitCallback,
                    Call.AddDimensionWithVehicleCapacity 0 d.vehicleCapacities true
                      Dimension.Capacity]
                ++ windows ++ starts ++ finalizers ++ requests ++ eligibility
                ++ [Call.AddAtSolutionCallback])

/-- The calls of `setup` itself, on the data it builds. -/
def setup (manager : RoutingIndexManager) (routing : RoutingModel) : Option (List Call) :=
  setupWith manager routing data

/-- The time transit callback `f` of `setup`. -/
def f (manager : RoutingIndexManager) (d : DataModelCPDPTW) (fromIndex toIndex : Int) :
    Option Int :=
  let fromNode := manager.IndexToNode fromIndex
  let toNode := manager.IndexToNode toIndex
  if fromNode < 0 ∨ toNode < 0 then none
  else
    match d.timeMatrix[fromNode.toNat]? with
    | none => none
    | some row => row[toNode.toNat]?

/-- The capacity transit callback `f2` of `setup`. -/
def f2 (manager : RoutingIndexManager) (d : DataModelCPDPTW) (fromIndex : Int) : Option Int :=
  let fromNode := manager.IndexToNode fromIndex
  if fromNode < 0 then none else d.demands[fromNode.toNat]?

/-! ## `printSolution` -/

/-- One record of a printed route: an index on the way carries its location
id, the Time cumulative bounds, the Time slack bounds and the load; the end
index carries no slack. -/
inductive Record where
  | visit (node tMin tMax sMin sMax load : Int)
  | final (node tMin tMax load : Int)
  deriving DecidableEq

/-- What the display of the routes writes: one record list per vehicle and the
two totals. -/
structure Routes where
  routes : List (List Record)
  totalTime : Int
  totalLoad : Int
  deriving DecidableEq

/-- What `printSolution` writes: first the dropped locations, then the routes;
`routes = none` when the display of the routes does not come to an end. -/
structure Output where
  dropped : List Int
  routes : Option Routes
  deriving DecidableEq

/-- Signed 64-bit wrap-around, for the `int64` sums. -/
def wrapInt64 (x : Int) : Int :=
  (x + 2 ^ 63) % 2 ^ 64 - 2 ^ 63

/-- The loop "Display dropped nodes": `n` runs over `count` indices from the
given one and `dropped` grows at the back. -/
def droppedLoop (manager : RoutingIndexManager) (routing : RoutingModel) (a : Assignment) :
    Nat → Nat → List Int → List Int
  | _, 0, dropped => dropped
  | n, count + 1, dropped =>
    if routing.IsStart n || routing.IsEnd n then
      droppedLoop manager routing a (n + 1) count dropped
    else if a.NextVar n = n then
      droppedLoop manager routing a (n + 1) count (dropped ++ [manager.IndexToNode n])
    else
      droppedLoop manager routing a (n + 1) count dropped

/-- The record printed inside the loop of a route, for an index that is not an
end: location id, Time cumulative bounds, Time slack bounds and load. -/
def visitRecord (manager : RoutingIndexManager) (a : Assignment) (index : Int) : Record :=
  Record.visit (manager.IndexToNode index) (a.TimeMin index) (a.TimeMax index)
    (a.SlackMin index) (a.SlackMax index) (a.Capacity index)

/-- The record printed after the loop of a route, for the index it stopped at:
location id, Time cumulative bounds and load. -/
def finalRecord (manager : RoutingIndexManager) (a : Assignment) (index : Int) : Record :=
  Record.final (manager.IndexToNode index) (a.TimeMin index) (a.TimeMax index)
    (a.Capacity index)

/-- The loop `for !routing.IsEnd(index)` of one route.  The Go loop has no
bound; here it runs at most `fuel` tests of its condition and gives `none`
when they are used up.  Otherwise it gives the index it stopped at and the
records so far. -/
def walk (manager : RoutingIndexManager) (routing : RoutingModel) (a : Assignment) :
    Nat → Int → List Record → Option (Int × List Record)
  | 0, _, _ => none
  | fuel + 1, index, route =>
    if routing.IsEnd index then
      some (index, route)
    else
      walk manager routing a fuel (a.NextVar index) (route ++ [visitRecord manager a index])

/-- Body of the loop over vehicles: the records of the route of `vehicleId`,
with the time and load printed for the route. -/
def vehicleRoute (manager : RoutingIndexManager) (routing : RoutingModel) (a : Assignment)
    (fuel : Nat) (vehicleId : Nat) : Option (List Record × Int × Int) :=
  match walk manager routing a fuel (routing.Start vehicleId) [] with
  | none => none
  | some (index, route) =>
    some (route ++ [finalRecord manager a index], a.TimeMin index, a.Capacity index)

/-- The loop "Display routes" over `count` vehicles from the given one. -/
def routesLoop (manager : RoutingIndexManager) (routing : RoutingModel) (a : Assignment)
    (fuel : Nat) : Nat → Nat → List (List Record) × Int × Int →
    Option (List (List Record) × Int × Int)
  | _, 0, acc => some acc
  | vehicleId, count + 1, (routes, totalTime, totalLoad) =>
    match vehicleRoute manager routing a fuel vehicleId with
    | none => none
    | some (records, tMin, capacity) =>
      routesLoop manager routing a fuel (vehicleId + 1) count
        (routes ++ [records], wrapInt64 (totalTime + tMin), wrapInt64 (totalLoad + capacity))

/-- The function `printSolution`; `solution = none` is the nil pointer, for
which every read goes to the live variables. -/
def printSolution (d : DataModelCPDPTW) (manager : RoutingIndexManager)
    (routing : RoutingModel) (solution : Option Assignment) (fuel : Nat) : Output :=
  let a := match solution with
    | none => routing.live
    | some s => s
  let dropped := droppedLoop manager routing a 0 routing.Size.toNat []
  match routesLoop manager routing a fuel 0 d.vehicleCapacities.length ([], 0, 0) with
  | none => ⟨dropped, none⟩
  | some (routes, totalTime, totalLoad) => ⟨dropped, some ⟨routes, totalTime, totalLoad⟩⟩

/-! ## The solution callback `p` -/

/-- The local `max` of `setup`: the maximal number of recorded solutions. -/
def max : Nat := 15

/-- The variables that the callback `p` closes over: the counter `i`, which
starts at 0 and is only ever incremented, and the array `objectives`. -/
structure Tracker where
  i : Nat
  objectives : List Int
  deriving DecidableEq

/-- The tracker as `setup` creates it: `i := 0`, `objectives := make([]int64, max)`. -/
def Tracker.init : Tracker := ⟨0, List.replicate Cpdptw.max 0⟩

/-- The trace recorded so far, `objectives[0..i)`. -/
def Tracker.trace (s : Tracker) : List Int := s.objectives.take s.i

/-- The test `i == 0 || o < objectives[i-1]`, with its short circuit; `none`
when the read is out of range. -/
def improves (s : Tracker) (o : Int) : Option Bool :=
  if s.i = 0 then some true
  else
    match s.objectives[s.i - 1]? with
    | none => none
    | some last => some (decide (o < last))

/-- One invocation of the callback `p`, on the routing model as it stands at
that moment.  The result is the tracker afterwards and whether
`FinishCurrentSearch` was called; `none` when an index is out of range or the
nested `printSolution` does not return. -/
def p (d : DataModelCPDPTW) (manager : RoutingIndexManager) (fuel : Nat)
    (s : Tracker) (routing : RoutingModel) : Option (Tracker × Bool) :=
  let o := routing.CostVar
  match improves s o with
  | none => none
  | some true =>
    if s.i < s.objectives.length then
      match (printSolution d manager routing none fuel).routes with
      | none => none
      | some _ =>
        some (⟨s.i + 1, s.objectives.set s.i o⟩, decide (Cpdptw.max ≤ s.i + 1))
    else none
  | some false => some (s, decide (Cpdptw.max ≤ s.i))

/-- The callback invoked once per element of a sequence of routing-model
snapshots, from a given tracker on. -/
def runFrom (d : DataModelCPDPTW) (manager : RoutingIndexManager) (fuel : Nat) :
    Tracker → List RoutingModel → Option Tracker
  | s, [] => some s
  | s, routing :: rest =>
    match p d manager fuel s routing with
    | none => none
    | some (s', _) => runFrom d manager fuel s' rest

/-- The callback invoked on a sequence of snapshots from the initial tracker. -/
def run (d : DataModelCPDPTW) (manager : RoutingIndexManager) (fuel : Nat)
    (snapshots : List RoutingModel) : Option Tracker :=
  runFrom d manager fuel Tracker.init snapshots

/-! ## Meaning of the registered constraints -/

/-- A binding of the solver variables that the registered constraints speak
about: successor, vehicle and Time cumulative of every routing index. -/
structure Valuation where
  NextVar : Int → Int
  VehicleVar : Int → Int
  TimeCumul : Int → Int

/-- Modelled from the spec: what a registered call demands of a valuation; the
solver that enforces it is not in the source.  A range keeps the Time
cumulative within its inclusive bounds, an equality makes the two vehicle
variables equal, a less-or-equal orders the two Time cumulatives, and an
eligibility set holds the vehicle of a visited index.  The other calls
(disjunctions with their penalty, dimensions, callbacks, search hints) put no
condition of their own on a valuation here. -/
def Call.holds (v : Valuation) : Call → Bool
  | Call.SetRange index lo hi => decide (lo ≤ v.TimeCumul index ∧ v.TimeCumul index ≤ hi)
  | Call.MakeEquality a b => decide (v.VehicleVar a = v.VehicleVar b)
  | Call.MakeLessOrEqual a b => decide (v.TimeCumul a ≤ v.TimeCumul b)
  | Call.SetAllowedVehiclesForIndex vehicles index =>
    decide (v.NextVar index = index ∨ v.VehicleVar index ∈ vehicles)
  | _ => true

/-! ## Conditions on the data -/

/-- The data that `setup` can index without going out of range: every time
window row and every request has at least two entries, and the depot window
is there when there are vehicles. -/
def wellFormed (d : DataModelCPDPTW) : Bool :=
  d.timeWindows.all (fun window => decide (2 ≤ window.length)) &&
    d.pickupDeliveries.all (fun request => decide (2 ≤ request.length)) &&
    (d.vehicleCapacities.isEmpty || !d.timeWindows.isEmpty)

/-- The eligibility condition in the words of the specification: the list,
read as a set of vehicle ids among `numVehicles` vehicles, is a subset that is
neither empty nor all vehicles. -/
def isProperSubsetOfVehicles (vehicles : List Int) (numVehicles : Nat) : Prop :=
  vehicles ≠ [] ∧ (∀ v ∈ vehicles, 0 ≤ v ∧ v < numVehicles) ∧
    ∃ v : Int, 0 ≤ v ∧ v < numVehicles ∧ v ∉ vehicles

/-- Modelled from the spec: in an assignment of the solver, which is not in the
source, the vehicle variable of an index is its owning vehicle, and an index
that is its own successor is not visited.  So an index is visited, that is,
not its own successor, exactly when its vehicle variable is the id of one of
the `numVehicles` vehicles. -/
def Valuation.servedIffVisited (v : Valuation) (numVehicles : Nat) (index : Int) : Bool :=
  decide (v.NextVar index ≠ index ↔
    (0 ≤ v.VehicleVar index ∧ v.VehicleVar index < numVehicles))

/-- One-sided dropping in the words of the specification: exactly one of the
two indices is its own successor. -/
def oneSidedDrop (v : Valuation) (pickup delivery : Int) : Prop :=
  (v.NextVar pickup = pickup ∧ v.NextVar delivery ≠ delivery) ∨
    (v.NextVar pickup ≠ pickup ∧ v.NextVar delivery = delivery)

/-! ## Example instances -/

/-- An example index manager for 17 locations: location `n` has index `n`,
and the indices from 17 on belong to the depot. -/
def exampleManager : RoutingIndexManager where
  NodeToIndex := fun n => n
  IndexToNode := fun i => if 0 ≤ i ∧ i < 17 then i else 0

/-- An example assignment: vehicle 0 drives 0, 6, 2 and ends at 20, the other
vehicles go from their start straight to their end, and every other index is
its own successor. -/
def exampleAssignment : Assignment where
  NextVar := fun i =>
    if i = 0 then 6 else if i = 6 then 2 else if i = 2 then 20
    else if i = 17 then 21 else if i = 18 then 22 else if i = 19 then 23 else i
  TimeMin := fun i => if i = 6 then 6 else if i = 2 then 10 else if i = 20 then 19 else 0
  TimeMax := fun i => if i = 6 then 8 else if i = 2 then 12 else if i = 20 then 21 else 2
  SlackMin := fun i => if 0 ≤ i ∧ i < 20 then 0 else -1
  SlackMax := fun i => if 0 ≤ i ∧ i < 20 then 1 else -1
  Capacity := fun i => if i = 2 then 1 else 0

/-- An example routing model for 17 locations and 4 vehicles at depot 0, with
a given current cost: starts 0, 17, 18, 19 and ends 20 to 23. -/
def exampleRouting (cost : Int) : RoutingModel where
  Size := 20
  Start := fun v => if v = 0 then 0 else 16 + v
  End := fun v => 20 + v
  IsStart := fun i => decide (i = 0 ∨ (17 ≤ i ∧ i < 20))
  IsEnd := fun i => decide (20 ≤ i ∧ i < 24)
  CostVar := cost
  live := exampleAssignment

/-- An example valuation on the successors of `exampleAssignment`: vehicle 0
serves 6 and 2, the starts 17, 18, 19 and the ends 20 to 23 have the vehicle
they belong to, the locations that are not visited have vehicle -1, and the
Time cumulative of every location is the earliest time of its window. -/
def exampleValuation : Valuation where
  NextVar := exampleAssignment.NextVar
  VehicleVar := fun i =>
    if i = 0 ∨ i = 6 ∨ i = 2 ∨ i = 20 then 0
    else if i = 17 ∨ i = 21 then 1
    else if i = 18 ∨ i = 22 then 2
    else if i = 19 ∨ i = 23 then 3
    else -1
  TimeCumul := fun i =>
    if 0 ≤ i ∧ i < 17 then
      match timeWindows[i.toNat]? with
      | some (lo :: _) => lo
      | _ => 0
    else 0

/-- The data of `setup` with the eligibility list of the depot replaced by one
that names the vehicles 0 and 1 twice each. -/
def repeatedIdsData : DataModelCPDPTW :=
  { data with allowedVehicles := [[0, 0, 1, 1]] }

/-- The data of `setup` with two eligibility lists only, the second of which
admits the vehicles 1 and 2 for location 1. -/
def restrictedData : DataModelCPDPTW :=
  { data with allowedVehicles := [[0, 1, 2, 3], [1, 2]] }

/-! ## `setup`: the loops -/

theorem mem_forRange (body : Nat → Option (List Call)) (i count : Nat) (out : List Call)
    (h : forRange body i count = some out) (c : Call) :
    c ∈ out ↔ ∃ j here, i ≤ j ∧ j < i + count ∧ body j = some here ∧ c ∈ here := by
  induction count generalizing i out with
  | zero =>
    simp only [forRange, Option.some.injEq] at h
    subst h
    constructor
    · intro hc
      simp at hc
    · rintro ⟨j, here, h1, h2, _, _⟩
      omega
  | succ n ih =>
    simp only [forRange] at h
    cases hb : body i with
    | none => simp [hb] at h
    | some here =>
      simp only [hb] at h
      cases hr : forRange body (i + 1) n with
      | none => simp [hr] at h
      | some rest =>
        simp only [hr, Option.some.injEq] at h
        subst h
        rw [List.mem_append, ih (i + 1) rest hr]
        constructor
        · rintro (hc | ⟨j, here', h1, h2, h3, h4⟩)
          · exact ⟨i, here, le_refl i, by omega, hb, hc⟩
          · exact ⟨j, here', by omega, by omega, h3, h4⟩
        · rintro ⟨j, here', h1, h2, h3, h4⟩
          by_cases hj : j = i
          · subst hj
            rw [hb] at h3
            simp only [Option.some.injEq] at h3
            subst h3
            exact Or.inl h4
          · exact Or.inr ⟨j, here', by omega, by omega, h3, h4⟩

theorem forRange_isSome (body : Nat → Option (List Call)) (i count : Nat)
    (h : ∀ j, i ≤ j → j < i + count → (body j).isSome = true) :
    (forRange body i count).isSome = true := by
  induction count generalizing i with
  | zero => simp [forRange]
  | succ n ih =>
    obtain ⟨here, hb⟩ := Option.isSome_iff_exists.1 (h i (le_refl i) (by omega))
    obtain ⟨rest, hr⟩ := Option.isSome_iff_exists.1
      (ih (i + 1) (fun j h1 h2 => h j (by omega) (by omega)))
    simp [forRange, hb, hr]

theorem mem_forEach (body : List Int → Option (List Call)) (requests : List (List Int))
    (out : List Call) (h : forEach body requests = some out) (c : Call) :
    c ∈ out ↔ ∃ request here, request ∈ requests ∧ body request = some here ∧ c ∈ here := by
  induction requests generalizing out with
  | nil =>
    simp only [forEach, Option.some.injEq] at h
    subst h
    simp
  | cons request rest ih =>
    simp only [forEach] at h
    cases hb : body request with
    | none => simp [hb] at h
    | some here =>
      simp only [hb] at h
      cases hr : forEach body rest with
      | none => simp [hr] at h
      | some tail =>
        simp only [hr, Option.some.injEq] at h
        subst h
        rw [List.mem_append, ih tail hr]
        constructor
        · rintro (hc | ⟨q, here', h1, h2, h3⟩)
          · exact ⟨request, here, List.mem_cons_self _ _, hb, hc⟩
          · exact ⟨q, here', List.mem_cons_of_mem _ h1, h2, h3⟩
        · rintro ⟨q, here', h1, h2, h3⟩
          rcases List.mem_cons.1 h1 with hq | hq
          · subst hq
            rw [hb] at h2
            simp only [Option.some.injEq] at h2
            subst h2
            exact Or.inl h3
          · exact Or.inr ⟨q, here', hq, h2, h3⟩

theorem forEach_isSome (body : List Int → Option (List Call)) (requests : List (List Int))
    (h : ∀ request ∈ requests, (body request).isSome = true) :
    (forEach body requests).isSome = true := by
  induction requests with
  | nil => simp [forEach]
  | cons request rest ih =>
    obtain ⟨here, hb⟩ := Option.isSome_iff_exists.1 (h request (List.mem_cons_self _ _))
    obtain ⟨tail, hr⟩ := Option.isSome_iff_exists.1
      (ih (fun q hq => h q (List.mem_cons_of_mem _ hq)))
    simp [forEach, hb, hr]

/-! ## `setup`: the loop bodies -/

/-- The first two entries of a row are read with success exactly when the row
has them. -/
theorem row_pair (row : List Int) (lo hi : Int) :
    (row[0]? = some lo ∧ row[1]? = some hi) ↔ ∃ rest, row = lo :: hi :: rest := by
  cases row with
  | nil => simp
  | cons x xs =>
    cases xs with
    | nil => simp
    | cons y ys => simp

theorem timeWindowBody_some (manager : RoutingIndexManager) (d : DataModelCPDPTW) (i : Nat)
    (here : List Call) :
    timeWindowBody manager d i = some here ↔
      ∃ lo hi rest, d.timeWindows[i]? = some (lo :: hi :: rest) ∧
        here = [Call.SetRange (manager.NodeToIndex i) lo hi,
                Call.AddToAssignment (manager.NodeToIndex i)] := by
  unfold timeWindowBody
  cases hw : d.timeWindows[i]? with
  | none => simp
  | some window =>
    cases window with
    | nil => simp
    | cons x xs =>
      cases xs with
      | nil => simp
      | cons y ys =>
        simp only [List.getElem?_cons_zero, List.getElem?_cons_succ, Option.some.injEq,
          List.cons.injEq]
        constructor
        · intro h
          exact ⟨x, y, ys, ⟨rfl, rfl, rfl⟩, h.symm⟩
        · rintro ⟨lo, hi, rest, ⟨h1, h2, _⟩, h⟩
          subst h1 h2
          exact h.symm

theorem startWindowBody_some (routing : RoutingModel) (d : DataModelCPDPTW) (i : Nat)
    (here : List Call) :
    startWindowBody routing d i = some here ↔
      ∃ lo hi rest, d.timeWindows[0]? = some (lo :: hi :: rest) ∧
        here = [Call.SetRange (routing.Start i) lo hi,
                Call.AddToAssignment (routing.Start i)] := by
  unfold startWindowBody
  cases hw : d.timeWindows[0]? with
  | none => simp
  | some window =>
    cases window with
    | nil => simp
    | cons x xs =>
      cases xs with
      | nil => simp
      | cons y ys =>
        simp only [List.getElem?_cons_zero, List.getElem?_cons_succ, Option.some.injEq,
          List.cons.injEq]
        constructor
        · intro h
          exact ⟨x, y, ys, ⟨rfl, rfl, rfl⟩, h.symm⟩
        · rintro ⟨lo, hi, rest, ⟨h1, h2, _⟩, h⟩
          subst h1 h2
          exact h.symm

theorem requestBody_some (manager : RoutingIndexManager) (request : List Int)
    (here : List Call) :
    requestBody manager request = some here ↔
      ∃ pickup delivery rest, request = pickup :: delivery :: rest ∧
        here = [Call.AddPickupAndDelivery (manager.NodeToIndex pickup)
                  (manager.NodeToIndex delivery),
                Call.MakeEquality (manager.NodeToIndex pickup) (manager.NodeToIndex delivery),
                Call.MakeLessOrEqual (manager.NodeToIndex pickup)
                  (manager.NodeToIndex delivery)] := by
  unfold requestBody
  cases request with
  | nil => simp
  | cons x xs =>
    cases xs with
    | nil => simp
    | cons y ys =>
      simp only [List.getElem?_cons_zero, List.getElem?_cons_succ, Option.some.injEq,
        List.cons.injEq]
      constructor
      · intro h
        exact ⟨x, y, ys, ⟨rfl, rfl, rfl⟩, h.symm⟩
      · rintro ⟨p, q, rest, ⟨h1, h2, _⟩, h⟩
        subst h1 h2
        exact h.symm

theorem allowedVehiclesBody_some (manager : RoutingIndexManager) (d : DataModelCPDPTW)
    (i : Nat) (here : List Call) :
    allowedVehiclesBody manager d i = some here ↔
      ∃ vehicles, d.allowedVehicles[i]? = some vehicles ∧
        here = if vehicles.length = 0 ∨ vehicles.length = d.vehicleCapacities.length then []
          else [Call.SetAllowedVehiclesForIndex vehicles (manager.NodeToIndex i)] := by
  unfold allowedVehiclesBody
  cases hw : d.allowedVehicles[i]? with
  | none => simp
  | some vehicles =>
    by_cases hc : vehicles.length = 0 ∨ vehicles.length = d.vehicleCapacities.length
    · show (if vehicles.length = 0 ∨ vehicles.length = d.vehicleCapacities.length
          then some [] else some [Call.SetAllowedVehiclesForIndex vehicles
            (manager.NodeToIndex i)]) = some here ↔ _
      rw [if_pos hc]
      constructor
      · intro h
        refine ⟨vehicles, rfl, ?_⟩
        rw [if_pos hc]
        exact (Option.some.inj h).symm
      · rintro ⟨vs, h1, h2⟩
        have hvs : vs = vehicles := (Option.some.inj h1).symm
        subst hvs
        rw [if_pos hc] at h2
        rw [h2]
    · show (if vehicles.length = 0 ∨ vehicles.length = d.vehicleCapacities.length
          then some [] else some [Call.SetAllowedVehiclesForIndex vehicles
            (manager.NodeToIndex i)]) = some here ↔ _
      rw [if_neg hc]
      constructor
      · intro h
        refine ⟨vehicles, rfl, ?_⟩
        rw [if_neg hc]
        exact (Option.some.inj h).symm
      · rintro ⟨vs, h1, h2⟩
        have hvs : vs = vehicles := (Option.some.inj h1).symm
        subst hvs
        rw [if_neg hc] at h2
        rw [h2]

/-! ## `setup`: the list of calls as a whole -/

/-- A successful `setup` is the six loops, each successful, with their calls in
program order around the fixed calls. -/
theorem setupWith_some (manager : RoutingIndexManager) (routing : RoutingModel)
    (d : DataModelCPDPTW) (cs : List Call) (h : setupWith manager routing d = some cs) :
    ∃ disjunctions windows starts finalizers requests eligibility,
      forRange (disjunctionBody manager) 1 (d.timeMatrix.length - 1) = some disjunctions ∧
      forRange (timeWindowBody manager d) 1 (d.timeWindows.length - 1) = some windows ∧
      forRange (startWindowBody routing d) 0 d.vehicleCapacities.length = some starts ∧
      forRange (finalizerBody routing) 0 d.vehicleCapacities.length = some finalizers ∧
      forEach (requestBody manager) d.pickupDeliveries = some requests ∧
      forRange (allowedVehiclesBody manager d) 0 d.allowedVehicles.length
        = some eligibility ∧
      cs = disjunctions
        ++ [Call.RegisterTransitCallback,
            Call.SetArcCostEvaluatorOfAllVehicles,
            Call.AddDimension 30 360 false Dimension.Time,
            Call.RegisterUnaryTransitCallback,
            Call.AddDimensionWithVehicleCapacity 0 d.vehicleCapacities true
              Dimension.Capacity]
        ++ windows ++ starts ++ finalizers ++ requests ++ eligibility
        ++ [Call.AddAtSolutionCallback] := by
  unfold setupWith at h
  cases h1 : forRange (disjunctionBody manager) 1 (d.timeMatrix.length - 1) with
  | none => simp [h1] at h
  | some disjunctions =>
    cases h2 : forRange (timeWindowBody manager d) 1 (d.timeWindows.length - 1) with
    | none => simp [h1, h2] at h
    | some windows =>
      cases h3 : forRange (startWindowBody routing d) 0 d.vehicleCapacities.length with
      | none => simp [h1, h2, h3] at h
      | some starts =>
        cases h4 : forRange (finalizerBody routing) 0 d.vehicleCapacities.length with
        | none => simp [h1, h2, h3, h4] at h
        | some finalizers =>
          cases h5 : forEach (requestBody manager) d.pickupDeliveries with
          | none => simp [h1, h2, h3, h4, h5] at h
          | some requests =>
            cases h6 : forRange (allowedVehiclesBody manager d) 0
                d.allowedVehicles.length with
            | none => simp [h1, h2, h3, h4, h5, h6] at h
            | some eligibility =>
              simp only [h1, h2, h3, h4, h5, h6, Option.some.injEq] at h
              exact ⟨disjunctions, windows, starts, finalizers, requests, eligibility,
                rfl, rfl, rfl, rfl, rfl, rfl, h.symm⟩

/-- On well-formed data no index expression of `setup` is out of range. -/
theorem setupWith_isSome (manager : RoutingIndexManager) (routing : RoutingModel)
    (d : DataModelCPDPTW) (hwf : wellFormed d = true) :
    (setupWith manager routing d).isSome = true := by
  simp only [wellFormed, Bool.and_eq_true, List.all_eq_true, decide_eq_true_eq,
    Bool.or_eq_true, List.isEmpty_iff, Bool.not_eq_true', Bool.not_eq_true] at hwf
  obtain ⟨⟨hw, hr⟩, hv⟩ := hwf
  have rows : ∀ (row : List Int), 2 ≤ row.length → ∃ lo hi rest, row = lo :: hi :: rest := by
    intro row hrow
    cases row with
    | nil => simp at hrow
    | cons x xs =>
      cases xs with
      | nil => simp at hrow
      | cons y ys => exact ⟨x, y, ys, rfl⟩
  obtain ⟨disjunctions, h1⟩ := Option.isSome_iff_exists.1
    (forRange_isSome (disjunctionBody manager) 1 (d.timeMatrix.length - 1)
      (fun j _ _ => by simp [disjunctionBody]))
  obtain ⟨windows, h2⟩ := Option.isSome_iff_exists.1
    (forRange_isSome (timeWindowBody manager d) 1 (d.timeWindows.length - 1)
      (fun j hj1 hj2 => by
        have hlt : j < d.timeWindows.length := by omega
        obtain ⟨lo, hi, rest, hrow⟩ := rows d.timeWindows[j] (hw _ (List.getElem_mem hlt))
        apply Option.isSome_iff_exists.2
        exact ⟨_, (timeWindowBody_some manager d j _).2
          ⟨lo, hi, rest, by rw [List.getElem?_eq_getElem hlt, hrow], rfl⟩⟩))
  obtain ⟨starts, h3⟩ := Option.isSome_iff_exists.1
    (forRange_isSome (startWindowBody routing d) 0 d.vehicleCapacities.length
      (fun j _ hj2 => by
        have hne : d.vehicleCapacities ≠ [] := by
          intro he
          rw [he] at hj2
          simp at hj2
        have hne2 : d.timeWindows ≠ [] := by
          rcases hv with hv | hv
          · exact absurd hv hne
          · intro he
            rw [he] at hv
            simp at hv
        have hlt : 0 < d.timeWindows.length := List.length_pos.2 hne2
        obtain ⟨lo, hi, rest, hrow⟩ := rows d.timeWindows[0] (hw _ (List.getElem_mem hlt))
        apply Option.isSome_iff_exists.2
        exact ⟨_, (startWindowBody_some routing d j _).2
          ⟨lo, hi, rest, by rw [List.getElem?_eq_getElem hlt, hrow], rfl⟩⟩))
  obtain ⟨finalizers, h4⟩ := Option.isSome_iff_exists.1
    (forRange_isSome (finalizerBody routing) 0 d.vehicleCapacities.length
      (fun j _ _ => by simp [finalizerBody]))
  obtain ⟨requests, h5⟩ := Option.isSome_iff_exists.1
    (forEach_isSome (requestBody manager) d.pickupDeliveries
      (fun request hreq => by
        obtain ⟨pickup, delivery, rest, hrow⟩ := rows request (hr request hreq)
        apply Option.isSome_iff_exists.2
        exact ⟨_, (requestBody_some manager request _).2 ⟨pickup, delivery, rest, hrow, rfl⟩⟩))
  obtain ⟨eligibility, h6⟩ := Option.isSome_iff_exists.1
    (forRange_isSome (allowedVehiclesBody manager d) 0 d.allowedVehicles.length
      (fun j _ hj2 => by
        have hlt : j < d.allowedVehicles.length := by omega
        apply Option.isSome_iff_exists.2
        exact ⟨_, (allowedVehiclesBody_some manager d j _).2
          ⟨d.allowedVehicles[j], List.getElem?_eq_getElem hlt, rfl⟩⟩))
  simp [setupWith, h1, h2, h3, h4, h5, h6]

/-- Every call of a successful `setup`, by the loop that makes it. -/
theorem mem_setupWith (manager : RoutingIndexManager) (routing : RoutingModel)
    (d : DataModelCPDPTW) (cs : List Call) (h : setupWith manager routing d = some cs)
    (c : Call) :
    c ∈ cs ↔
      (∃ i : Nat, 1 ≤ i ∧ i < d.timeMatrix.length ∧
        c = Call.AddDisjunction [manager.NodeToIndex i] 1000) ∨
      (c ∈ [Call.RegisterTransitCallback, Call.SetArcCostEvaluatorOfAllVehicles,
            Call.AddDimension 30 360 false Dimension.Time,
            Call.RegisterUnaryTransitCallback,
            Call.AddDimensionWithVehicleCapacity 0 d.vehicleCapacities true
              Dimension.Capacity]) ∨
      (∃ (i : Nat) (lo hi : Int) (rest : List Int), 1 ≤ i ∧ i < d.timeWindows.length ∧
        d.timeWindows[i]? = some (lo :: hi :: rest) ∧
        (c = Call.SetRange (manager.NodeToIndex i) lo hi ∨
          c = Call.AddToAssignment (manager.NodeToIndex i))) ∨
      (∃ (v : Nat) (lo hi : Int) (rest : List Int), v < d.vehicleCapacities.length ∧
        d.timeWindows[0]? = some (lo :: hi :: rest) ∧
        (c = Call.SetRange (routing.Start v) lo hi ∨
          c = Call.AddToAssignment (routing.Start v))) ∨
      (∃ v : Nat, v < d.vehicleCapacities.length ∧
        (c = Call.AddVariableMinimizedByFinalizer (routing.Start v) ∨
          c = Call.AddVariableMinimizedByFinalizer (routing.End v))) ∨
      (∃ (pickup delivery : Int) (rest : List Int),
        (pickup :: delivery :: rest) ∈ d.pickupDeliveries ∧
        (c = Call.AddPickupAndDelivery (manager.NodeToIndex pickup)
              (manager.NodeToIndex delivery) ∨
          c = Call.MakeEquality (manager.NodeToIndex pickup) (manager.NodeToIndex delivery) ∨
          c = Call.MakeLessOrEqual (manager.NodeToIndex pickup)
              (manager.NodeToIndex delivery))) ∨
      (∃ (i : Nat) (vehicles : List Int), d.allowedVehicles[i]? = some vehicles ∧
        vehicles.length ≠ 0 ∧ vehicles.length ≠ d.vehicleCapacities.length ∧
        c = Call.SetAllowedVehiclesForIndex vehicles (manager.NodeToIndex i)) ∨
      c = Call.AddAtSolutionCallback := by
  obtain ⟨disjunctions, windows, starts, finalizers, requests, eligibility,
    h1, h2, h3, h4, h5, h6, hcs⟩ := setupWith_some manager routing d cs h
  subst hcs
  simp only [List.mem_append, mem_forRange _ _ _ _ h1, mem_forRange _ _ _ _ h2,
    mem_forRange _ _ _ _ h3, mem_forRange _ _ _ _ h4, mem_forEach _ _ _ h5,
    mem_forRange _ _ _ _ h6, timeWindowBody_some, startWindowBody_some, requestBody_some,
    allowedVehiclesBody_some, disjunctionBody, finalizerBody]
  constructor
  · rintro (((((((⟨j, here, hj1, hj2, hb, hc⟩ | hc) | ⟨j, here, hj1, hj2, hb, hc⟩) |
      ⟨j, here, _, hj2, hb, hc⟩) | ⟨j, here, _, hj2, hb, hc⟩) | ⟨q, here, hq, hb, hc⟩) |
      ⟨j, here, _, hj2, hb, hc⟩) | hc)
    · simp only [Option.some.injEq] at hb
      subst hb
      exact Or.inl ⟨j, hj1, by omega, by simpa using hc⟩
    · exact Or.inr (Or.inl hc)
    · obtain ⟨lo, hi, rest, hrow, hhere⟩ := hb
      subst hhere
      refine Or.inr (Or.inr (Or.inl ⟨j, lo, hi, rest, hj1, by omega, hrow, ?_⟩))
      simpa using hc
    · obtain ⟨lo, hi, rest, hrow, hhere⟩ := hb
      subst hhere
      refine Or.inr (Or.inr (Or.inr (Or.inl ⟨j, lo, hi, rest, by omega, hrow, ?_⟩)))
      simpa using hc
    · simp only [Option.some.injEq] at hb
      subst hb
      refine Or.inr (Or.inr (Or.inr (Or.inr (Or.inl ⟨j, by omega, ?_⟩))))
      simpa using hc
    · obtain ⟨pickup, delivery, rest, hrow, hhere⟩ := hb
      subst hhere hrow
      refine Or.inr (Or.inr (Or.inr (Or.inr (Or.inr (Or.inl
        ⟨pickup, delivery, rest, hq, ?_⟩)))))
      simpa using hc
    · obtain ⟨vehicles, hrow, hhere⟩ := hb
      subst hhere
      by_cases hlen : vehicles.length = 0 ∨ vehicles.length = d.vehicleCapacities.length
      · rw [if_pos hlen] at hc
        simp at hc
      · rw [if_neg hlen] at hc
        refine Or.inr (Or.inr (Or.inr (Or.inr (Or.inr (Or.inr (Or.inl
          ⟨j, vehicles, hrow, ?_, ?_, ?_⟩))))))
        · exact fun h0 => hlen (Or.inl h0)
        · exact fun h0 => hlen (Or.inr h0)
        · simpa using hc
    · exact Or.inr (Or.inr (Or.inr (Or.inr (Or.inr (Or.inr (Or.inr (by simpa using hc)))))))
  · rintro (⟨i, hi1, hi2, hc⟩ | hc | ⟨i, lo, hi, rest, hi1, hi2, hrow, hc⟩ |
      ⟨v, lo, hi, rest, hv, hrow, hc⟩ | ⟨v, hv, hc⟩ | ⟨pickup, delivery, rest, hq, hc⟩ |
      ⟨i, vehicles, hrow, hl0, hl1, hc⟩ | hc)
    · exact Or.inl (Or.inl (Or.inl (Or.inl (Or.inl (Or.inl (Or.inl
        ⟨i, _, hi1, by omega, rfl, by simpa using hc⟩))))))
    · exact Or.inl (Or.inl (Or.inl (Or.inl (Or.inl (Or.inl (Or.inr hc))))))
    · exact Or.inl (Or.inl (Or.inl (Or.inl (Or.inl (Or.inr
        ⟨i, _, hi1, by omega, ⟨lo, hi, rest, hrow, rfl⟩, by simpa using hc⟩)))))
    · exact Or.inl (Or.inl (Or.inl (Or.inl (Or.inr
        ⟨v, _, Nat.zero_le v, by omega, ⟨lo, hi, rest, hrow, rfl⟩, by simpa using hc⟩))))
    · exact Or.inl (Or.inl (Or.inl (Or.inr
        ⟨v, _, Nat.zero_le v, by omega, rfl, by simpa using hc⟩)))
    · exact Or.inl (Or.inl (Or.inr
        ⟨pickup :: delivery :: rest, _, hq, ⟨pickup, delivery, rest, rfl, rfl⟩,
          by simpa using hc⟩))
    · have hlt : i < d.allowedVehicles.length := by
        by_contra hge
        rw [List.getElem?_eq_none (by omega)] at hrow
        simp at hrow
      have hlen : ¬ (vehicles.length = 0 ∨ vehicles.length = d.vehicleCapacities.length) := by
        rintro (h0 | h0)
        · exact hl0 h0
        · exact hl1 h0
      exact Or.inl (Or.inr
        ⟨i, _, Nat.zero_le i, by omega, ⟨vehicles, hrow, rfl⟩, by rw [if_neg hlen]; simpa using hc⟩)
    · exact Or.inr (by simpa using hc)

/-! ## `setup`: the specified properties -/

/-- A list of distinct vehicle ids below `n` has `n` entries exactly when it
holds every id below `n`. -/
theorem length_eq_iff_all_vehicles (vehicles : List Int) (n : Nat) (hnd : vehicles.Nodup)
    (hr : ∀ v ∈ vehicles, 0 ≤ v ∧ v < n) :
    vehicles.length = n ↔ ∀ v : Int, 0 ≤ v → v < n → v ∈ vehicles := by
  have hsub : vehicles.toFinset ⊆ Finset.Ico (0 : Int) n := by
    intro v hv
    rw [List.mem_toFinset] at hv
    rw [Finset.mem_Ico]
    exact hr v hv
  have hcard : vehicles.toFinset.card = vehicles.length := List.toFinset_card_of_nodup hnd
  have hIco : (Finset.Ico (0 : Int) n).card = n := by simp [Int.card_Ico]
  constructor
  · intro hlen v h0 h1
    have heq : vehicles.toFinset = Finset.Ico (0 : Int) n :=
      Finset.eq_of_subset_of_card_le hsub (by rw [hIco, hcard, hlen])
    have hv : v ∈ Finset.Ico (0 : Int) n := Finset.mem_Ico.2 ⟨h0, h1⟩
    rw [← heq] at hv
    exact List.mem_toFinset.1 hv
  · intro hall
    have hsup : Finset.Ico (0 : Int) n ⊆ vehicles.toFinset := by
      intro v hv
      rw [Finset.mem_Ico] at hv
      exact List.mem_toFinset.2 (hall v hv.1 hv.2)
    have heq := Finset.Subset.antisymm hsub hsup
    rw [← hcard, heq, hIco]

/-- C1: on well-formed data `setup` returns, and its calls hold the equality
of the two vehicle variables, the order of the two Time cumulatives and the
pickup-and-delivery registration for a pair of indices exactly when that pair
is `NodeToIndex` of the first two entries of a request in
`data.pickupDeliveries`.  So every valuation that satisfies the registered
calls gives pickup and delivery of each request the same vehicle and the
pickup a Time cumulative no greater than the delivery. -/
theorem C1_pairing_constraints (manager : RoutingIndexManager) (routing : RoutingModel)
    (d : DataModelCPDPTW) (hwf : wellFormed d = true) :
    (setupWith manager routing d).isSome = true ∧
      ∀ cs, setupWith manager routing d = some cs →
        (∀ a b, Call.MakeEquality a b ∈ cs ↔
          ∃ pickup delivery rest, (pickup :: delivery :: rest) ∈ d.pickupDeliveries ∧
            a = manager.NodeToIndex pickup ∧ b = manager.NodeToIndex delivery) ∧
        (∀ a b, Call.MakeLessOrEqual a b ∈ cs ↔
          ∃ pickup delivery rest, (pickup :: delivery :: rest) ∈ d.pickupDeliveries ∧
            a = manager.NodeToIndex pickup ∧ b = manager.NodeToIndex delivery) ∧
        (∀ a b, Call.AddPickupAndDelivery a b ∈ cs ↔
          ∃ pickup delivery rest, (pickup :: delivery :: rest) ∈ d.pickupDeliveries ∧
            a = manager.NodeToIndex pickup ∧ b = manager.NodeToIndex delivery) ∧
        ∀ v : Valuation, (∀ c ∈ cs, c.holds v = true) →
          ∀ pickup delivery rest, (pickup :: delivery :: rest) ∈ d.pickupDeliveries →
            v.VehicleVar (manager.NodeToIndex pickup)
                = v.VehicleVar (manager.NodeToIndex delivery) ∧
              v.TimeCumul (manager.NodeToIndex pickup)
                ≤ v.TimeCumul (manager.NodeToIndex delivery) := by
  refine ⟨setupWith_isSome manager routing d hwf, ?_⟩
  intro cs hcs
  have heq : ∀ a b, Call.MakeEquality a b ∈ cs ↔
      ∃ pickup delivery rest, (pickup :: delivery :: rest) ∈ d.pickupDeliveries ∧
        a = manager.NodeToIndex pickup ∧ b = manager.NodeToIndex delivery := by
    intro a b
    rw [mem_setupWith manager routing d cs hcs]
    simp
  have hle : ∀ a b, Call.MakeLessOrEqual a b ∈ cs ↔
      ∃ pickup delivery rest, (pickup :: delivery :: rest) ∈ d.pickupDeliveries ∧
        a = manager.NodeToIndex pickup ∧ b = manager.NodeToIndex delivery := by
    intro a b
    rw [mem_setupWith manager routing d cs hcs]
    simp
  have hpd : ∀ a b, Call.AddPickupAndDelivery a b ∈ cs ↔
      ∃ pickup delivery rest, (pickup :: delivery :: rest) ∈ d.pickupDeliveries ∧
        a = manager.NodeToIndex pickup ∧ b = manager.NodeToIndex delivery := by
    intro a b
    rw [mem_setupWith manager routing d cs hcs]
    simp
  refine ⟨heq, hle, hpd, ?_⟩
  intro v hv pickup delivery rest hmem
  have h1 := hv _ ((heq _ _).2 ⟨pickup, delivery, rest, hmem, rfl, rfl⟩)
  have h2 := hv _ ((hle _ _).2 ⟨pickup, delivery, rest, hmem, rfl, rfl⟩)
  simp only [Call.holds, decide_eq_true_eq] at h1 h2
  exact ⟨h1, h2⟩

/-- C1 on the data of `setup` with the example manager and valuation: the
pairs (6, 2), (9, 14) and (5, 10) share a vehicle and are ordered in time. -/
theorem C1_pairing_constraints_witness :
    (exampleValuation.VehicleVar 6 = exampleValuation.VehicleVar 2 ∧
      exampleValuation.TimeCumul 6 ≤ exampleValuation.TimeCumul 2) ∧
    (exampleValuation.VehicleVar 9 = exampleValuation.VehicleVar 14 ∧
      exampleValuation.TimeCumul 9 ≤ exampleValuation.TimeCumul 14) ∧
    (exampleValuation.VehicleVar 5 = exampleValuation.VehicleVar 10 ∧
      exampleValuation.TimeCumul 5 ≤ exampleValuation.TimeCumul 10) :=
  have key := ((C1_pairing_constraints exampleManager (exampleRouting 0) data (by decide)).2
    ((setup exampleManager (exampleRouting 0)).getD []) (by decide)).2.2.2
    exampleValuation (by decide)
  ⟨key 6 2 [] (by decide), key 9 14 [] (by decide), key 5 10 [] (by decide)⟩

/-- C2: on well-formed data `setup` returns, and its range calls are these:
for every location `i` from 1 below `len(data.timeWindows)` the range of the
Time cumulative at `NodeToIndex(i)` with the two entries of window `i` as
inclusive bounds, and for every vehicle the range at `Start(v)` with the two
entries of the depot window; there is no other range call.  So every
valuation that satisfies the registered calls has the Time cumulative of each
such location inside its own window, bounds included, and that of each
vehicle start inside the depot window. -/
theorem C2_time_window_ranges (manager : RoutingIndexManager) (routing : RoutingModel)
    (d : DataModelCPDPTW) (hwf : wellFormed d = true) :
    (setupWith manager routing d).isSome = true ∧
      ∀ cs, setupWith manager routing d = some cs →
        (∀ i : Nat, 1 ≤ i → i < d.timeWindows.length →
          ∃ lo hi rest, d.timeWindows[i]? = some (lo :: hi :: rest) ∧
            Call.SetRange (manager.NodeToIndex i) lo hi ∈ cs) ∧
        (∀ v : Nat, v < d.vehicleCapacities.length →
          ∃ lo hi rest, d.timeWindows[0]? = some (lo :: hi :: rest) ∧
            Call.SetRange (routing.Start v) lo hi ∈ cs) ∧
        (∀ index lo hi, Call.SetRange index lo hi ∈ cs →
          (∃ i : Nat, 1 ≤ i ∧ i < d.timeWindows.length ∧ index = manager.NodeToIndex i ∧
            ∃ rest, d.timeWindows[i]? = some (lo :: hi :: rest)) ∨
          (∃ v : Nat, v < d.vehicleCapacities.length ∧ index = routing.Start v ∧
            ∃ rest, d.timeWindows[0]? = some (lo :: hi :: rest))) ∧
        ∀ val : Valuation, (∀ c ∈ cs, c.holds val = true) →
          (∀ (i : Nat) (lo hi : Int) (rest : List Int), 1 ≤ i →
            d.timeWindows[i]? = some (lo :: hi :: rest) →
            lo ≤ val.TimeCumul (manager.NodeToIndex i) ∧
              val.TimeCumul (manager.NodeToIndex i) ≤ hi) ∧
          (∀ (v : Nat) (lo hi : Int) (rest : List Int), v < d.vehicleCapacities.length →
            d.timeWindows[0]? = some (lo :: hi :: rest) →
            lo ≤ val.TimeCumul (routing.Start v) ∧ val.TimeCumul (routing.Start v) ≤ hi) := by
  have hsome := setupWith_isSome manager routing d hwf
  refine ⟨hsome, ?_⟩
  intro cs hcs
  have hmem : ∀ index lo hi, Call.SetRange index lo hi ∈ cs ↔
      (∃ i : Nat, 1 ≤ i ∧ i < d.timeWindows.length ∧ index = manager.NodeToIndex i ∧
        ∃ rest, d.timeWindows[i]? = some (lo :: hi :: rest)) ∨
      (∃ v : Nat, v < d.vehicleCapacities.length ∧ index = routing.Start v ∧
        ∃ rest, d.timeWindows[0]? = some (lo :: hi :: rest)) := by
    intro index lo hi
    rw [mem_setupWith manager routing d cs hcs]
    simp only [reduceCtorEq, false_and, and_false, exists_false, false_or, or_false,
      List.mem_cons, List.mem_singleton, List.not_mem_nil, Call.SetRange.injEq,
      exists_const]
    constructor
    · rintro (⟨i, lo', hi', rest, h1, h2, hrow, e1, e2, e3⟩ |
        ⟨v, lo', hi', rest, hv, hrow, e1, e2, e3⟩)
      · subst e2 e3
        exact Or.inl ⟨i, h1, h2, e1, rest, hrow⟩
      · subst e2 e3
        exact Or.inr ⟨v, hv, e1, rest, hrow⟩
    · rintro (⟨i, h1, h2, e1, rest, hrow⟩ | ⟨v, hv, e1, rest, hrow⟩)
      · exact Or.inl ⟨i, lo, hi, rest, h1, h2, hrow, e1, rfl, rfl⟩
      · exact Or.inr ⟨v, lo, hi, rest, hv, hrow, e1, rfl, rfl⟩
  simp only [wellFormed, Bool.and_eq_true, List.all_eq_true, decide_eq_true_eq,
    Bool.or_eq_true, List.isEmpty_iff, Bool.not_eq_true', Bool.not_eq_true] at hwf
  obtain ⟨⟨hw, _⟩, hv⟩ := hwf
  have rows : ∀ (k : Nat), k < d.timeWindows.length →
      ∃ lo hi rest, d.timeWindows[k]? = some (lo :: hi :: rest) := by
    intro k hk
    have hlen := hw _ (List.getElem_mem hk)
    rw [List.getElem?_eq_getElem hk]
    cases hrow : d.timeWindows[k] with
    | nil => simp [hrow] at hlen
    | cons x xs =>
      cases xs with
      | nil => simp [hrow] at hlen
      | cons y ys => exact ⟨x, y, ys, rfl⟩
  refine ⟨?_, ?_, fun index lo hi h => (hmem index lo hi).1 h, ?_⟩
  · intro i h1 h2
    obtain ⟨lo, hi, rest, hrow⟩ := rows i h2
    exact ⟨lo, hi, rest, hrow, (hmem _ _ _).2 (Or.inl ⟨i, h1, h2, rfl, rest, hrow⟩)⟩
  · intro v hlt
    have hne : d.timeWindows ≠ [] := by
      rcases hv with hv | hv
      · rw [hv] at hlt
        simp at hlt
      · intro he
        rw [he] at hv
        simp at hv
    obtain ⟨lo, hi, rest, hrow⟩ := rows 0 (List.length_pos.2 hne)
    exact ⟨lo, hi, rest, hrow, (hmem _ _ _).2 (Or.inr ⟨v, hlt, rfl, rest, hrow⟩)⟩
  · intro val hval
    constructor
    · intro i lo hi rest h1 hrow
      have h2 : i < d.timeWindows.length := by
        by_contra hge
        rw [List.getElem?_eq_none (by omega)] at hrow
        simp at hrow
      have := hval _ ((hmem _ _ _).2 (Or.inl ⟨i, h1, h2, rfl, rest, hrow⟩))
      simpa [Call.holds] using this
    · intro v lo hi rest hlt hrow
      have := hval _ ((hmem _ _ _).2 (Or.inr ⟨v, hlt, rfl, rest, hrow⟩))
      simpa [Call.holds] using this

/-- C2 on the data of `setup` with the example manager and valuation: the time
of location 3 lies in its window from 16 to 18 and that of the start of
vehicle 1 in the depot window from 0 to 5. -/
theorem C2_time_window_ranges_witness :
    ((16 : Int) ≤ exampleValuation.TimeCumul 3 ∧ exampleValuation.TimeCumul 3 ≤ 18) ∧
    ((0 : Int) ≤ exampleValuation.TimeCumul 17 ∧ exampleValuation.TimeCumul 17 ≤ 5) :=
  have key := ((C2_time_window_ranges exampleManager (exampleRouting 0) data (by decide)).2
    ((setup exampleManager (exampleRouting 0)).getD []) (by decide)).2.2.2
    exampleValuation (by decide)
  ⟨key.1 3 16 18 [] (by decide) (by decide), key.2 1 0 5 [] (by decide) (by decide)⟩

/-- C3, as amended: on well-formed data `setup` returns, and for every
location `i` whose allowed-vehicle list has no repeated id and only ids of
existing vehicles, the round of the eligibility loop for `i` adds the call
`SetAllowedVehiclesForIndex` on `NodeToIndex(i)` with exactly that list when
the list is a subset of the vehicles that is neither empty nor all of them,
and adds nothing otherwise.  Every eligibility call of `setup` passes the list
of some location with the index of that location, and on the data of `setup`
itself there is no eligibility call. -/
theorem C3_eligibility_constraints (manager : RoutingIndexManager) (routing : RoutingModel)
    (d : DataModelCPDPTW) (hwf : wellFormed d = true) :
    (setupWith manager routing d).isSome = true ∧
      ∀ cs, setupWith manager routing d = some cs →
        (∀ (i : Nat) (vehicles : List Int), d.allowedVehicles[i]? = some vehicles →
          vehicles.Nodup → (∀ v ∈ vehicles, 0 ≤ v ∧ v < d.vehicleCapacities.length) →
          (isProperSubsetOfVehicles vehicles d.vehicleCapacities.length →
            allowedVehiclesBody manager d i
                = some [Call.SetAllowedVehiclesForIndex vehicles (manager.NodeToIndex i)] ∧
              Call.SetAllowedVehiclesForIndex vehicles (manager.NodeToIndex i) ∈ cs) ∧
          (¬ isProperSubsetOfVehicles vehicles d.vehicleCapacities.length →
            allowedVehiclesBody manager d i = some [])) ∧
        (∀ vehicles index, Call.SetAllowedVehiclesForIndex vehicles index ∈ cs →
          ∃ i : Nat, d.allowedVehicles[i]? = some vehicles ∧
            index = manager.NodeToIndex i) ∧
        (d = data → ∀ vehicles index, Call.SetAllowedVehiclesForIndex vehicles index ∉ cs) := by
  refine ⟨setupWith_isSome manager routing d hwf, ?_⟩
  intro cs hcs
  have hmem : ∀ vehicles index, Call.SetAllowedVehiclesForIndex vehicles index ∈ cs ↔
      ∃ i : Nat, d.allowedVehicles[i]? = some vehicles ∧ vehicles.length ≠ 0 ∧
        vehicles.length ≠ d.vehicleCapacities.length ∧ index = manager.NodeToIndex i := by
    intro vehicles index
    rw [mem_setupWith manager routing d cs hcs]
    simp only [reduceCtorEq, false_and, and_false, exists_false, false_or, or_false,
      List.mem_cons, List.mem_singleton, List.not_mem_nil,
      Call.SetAllowedVehiclesForIndex.injEq, exists_const]
    constructor
    · rintro ⟨i, vs, hrow, h0, h1, e1, e2⟩
      subst e1
      exact ⟨i, hrow, h0, h1, e2⟩
    · rintro ⟨i, hrow, h0, h1, e2⟩
      exact ⟨i, vehicles, hrow, h0, h1, rfl, e2⟩
  refine ⟨?_, ?_, ?_⟩
  · intro i vehicles hrow hnd hrange
    have hfull := length_eq_iff_all_vehicles vehicles d.vehicleCapacities.length hnd hrange
    constructor
    · rintro ⟨hne, _, v, hv0, hv1, hv⟩
      have h0 : vehicles.length ≠ 0 := by
        intro h0
        exact hne (List.length_eq_zero.1 h0)
      have h1 : vehicles.length ≠ d.vehicleCapacities.length := by
        intro h1
        exact hv (hfull.1 h1 v hv0 hv1)
      refine ⟨?_, (hmem _ _).2 ⟨i, hrow, h0, h1, rfl⟩⟩
      rw [allowedVehiclesBody_some]
      refine ⟨vehicles, hrow, ?_⟩
      rw [if_neg]
      rintro (h | h)
      · exact h0 h
      · exact h1 h
    · intro hnot
      rw [allowedVehiclesBody_some]
      refine ⟨vehicles, hrow, ?_⟩
      rw [if_pos]
      by_contra hlen
      apply hnot
      refine ⟨?_, hrange, ?_⟩
      · intro he
        apply hlen
        left
        rw [he]
        rfl
      · by_contra hall
        apply hlen
        right
        apply hfull.2
        intro v hv0 hv1
        by_contra hv
        exact hall ⟨v, hv0, hv1, hv⟩
  · intro vehicles index h
    obtain ⟨i, hrow, _, _, hidx⟩ := (hmem vehicles index).1 h
    exact ⟨i, hrow, hidx⟩
  · intro hd vehicles index h
    subst hd
    obtain ⟨i, hrow, h0, h1, _⟩ := (hmem vehicles index).1 h
    have hall : ∀ vs ∈ data.allowedVehicles, vs.length = 0 ∨ vs.length = 4 := by decide
    have hin : vehicles ∈ data.allowedVehicles := List.getElem?_mem hrow
    rcases hall vehicles hin with h | h
    · exact h0 h
    · exact h1 h

/-- C3 on `restrictedData` with the example manager: location 1, allowed the
vehicles 1 and 2 out of four, gets its eligibility call. -/
theorem C3_eligibility_constraints_witness :
    Call.SetAllowedVehiclesForIndex [1, 2] 1
      ∈ (setupWith exampleManager (exampleRouting 0) restrictedData).getD [] :=
  ((((C3_eligibility_constraints exampleManager (exampleRouting 0) restrictedData
    (by decide)).2
    ((setupWith exampleManager (exampleRouting 0) restrictedData).getD []) (by decide)).1
    1 [1, 2] (by decide) (by decide) (by decide)).1
    ⟨by decide, by decide, 0, by decide, by decide, by decide⟩).2

/-- C3 fails as worded: in `repeatedIdsData` the list of location 0, read as a
set, is the vehicles 0 and 1 out of four, a subset that is neither empty nor
full, yet the eligibility loop adds nothing for it and `setup` registers no
such call. -/
theorem C3_repeated_ids_counterexample :
    repeatedIdsData.allowedVehicles[0]? = some [0, 0, 1, 1] ∧
      isProperSubsetOfVehicles [0, 0, 1, 1] repeatedIdsData.vehicleCapacities.length ∧
      allowedVehiclesBody exampleManager repeatedIdsData 0 = some [] ∧
      (setupWith exampleManager (exampleRouting 0) repeatedIdsData).isSome = true ∧
      Call.SetAllowedVehiclesForIndex [0, 0, 1, 1] (exampleManager.NodeToIndex 0)
        ∉ (setupWith exampleManager (exampleRouting 0) repeatedIdsData).getD [] :=
  ⟨by decide, ⟨by decide, by decide, 2, by decide, by decide, by decide⟩, by decide,
    by decide, by decide⟩

/-- C9: on well-formed data `setup` returns and registers, for every request
of `data.pickupDeliveries`, the equality of the vehicle variables of its
pickup and its delivery.  So in every assignment that satisfies the
registered calls, where an index is visited exactly when its vehicle variable
is a vehicle id, the pickup is its own successor exactly when the delivery
is: no such assignment drops one of the two and visits the other. -/
theorem C9_no_one_sided_drop (manager : RoutingIndexManager) (routing : RoutingModel)
    (d : DataModelCPDPTW) (hwf : wellFormed d = true) :
    (setupWith manager routing d).isSome = true ∧
      ∀ cs, setupWith manager routing d = some cs →
        ∀ pickup delivery rest, (pickup :: delivery :: rest) ∈ d.pickupDeliveries →
          Call.MakeEquality (manager.NodeToIndex pickup) (manager.NodeToIndex delivery) ∈ cs ∧
          ∀ v : Valuation, (∀ c ∈ cs, c.holds v = true) →
            v.servedIffVisited d.vehicleCapacities.length (manager.NodeToIndex pickup) = true →
            v.servedIffVisited d.vehicleCapacities.length (manager.NodeToIndex delivery)
              = true →
            (v.NextVar (manager.NodeToIndex pickup) = manager.NodeToIndex pickup ↔
              v.NextVar (manager.NodeToIndex delivery) = manager.NodeToIndex delivery) ∧
            ¬ oneSidedDrop v (manager.NodeToIndex pickup) (manager.NodeToIndex delivery) := by
  refine ⟨setupWith_isSome manager routing d hwf, ?_⟩
  intro cs hcs pickup delivery rest hmem
  have hreg : Call.MakeEquality (manager.NodeToIndex pickup) (manager.NodeToIndex delivery)
      ∈ cs := by
    rw [mem_setupWith manager routing d cs hcs]
    exact Or.inr (Or.inr (Or.inr (Or.inr (Or.inr (Or.inl
      ⟨pickup, delivery, rest, hmem, Or.inr (Or.inl rfl)⟩)))))
  refine ⟨hreg, ?_⟩
  intro v hv hp hd
  have heq := hv _ hreg
  simp only [Call.holds, decide_eq_true_eq] at heq
  simp only [Valuation.servedIffVisited, decide_eq_true_eq] at hp hd
  rw [heq] at hp
  have hiff : v.NextVar (manager.NodeToIndex pickup) = manager.NodeToIndex pickup ↔
      v.NextVar (manager.NodeToIndex delivery) = manager.NodeToIndex delivery := by
    constructor
    · intro h
      by_contra hne
      exact (hp.2 (hd.1 hne)) h
    · intro h
      by_contra hne
      exact (hd.2 (hp.1 hne)) h
  refine ⟨hiff, ?_⟩
  rintro (⟨h1, h2⟩ | ⟨h1, h2⟩)
  · exact h2 (hiff.1 h1)
  · exact h1 (hiff.2 h2)

/-- C9 on the data of `setup` with the example manager and valuation, which
visits both 6 and 2 and drops both 9 and 14: neither pair is dropped on one
side only. -/
theorem C9_no_one_sided_drop_witness :
    ¬ oneSidedDrop exampleValuation 6 2 ∧ ¬ oneSidedDrop exampleValuation 9 14 :=
  have key := (C9_no_one_sided_drop exampleManager (exampleRouting 0) data (by decide)).2
    ((setup exampleManager (exampleRouting 0)).getD []) (by decide)
  ⟨((key 6 2 [] (by decide)).2 exampleValuation (by decide) (by decide) (by decide)).2,
    ((key 9 14 [] (by decide)).2 exampleValuation (by decide) (by decide) (by decide)).2⟩
/-! ## The solution callback: what one invocation does -/

theorem take_set_self (l : List Int) (i : Nat) (o : Int) :
    (l.set i o).take i = l.take i := by
  induction l generalizing i with
  | nil => simp
  | cons x xs ih =>
    cases i with
    | zero => simp
    | succ n => simp [ih]

theorem take_succ_set (l : List Int) (i : Nat) (o : Int) (h : i < l.length) :
    (l.set i o).take (i + 1) = l.take i ++ [o] := by
  rw [List.take_succ, take_set_self]
  simp [List.getElem?_set, h]

/-- The improving branch of `p`: the objective is written at position `i`, the
counter goes up by one, and the stop is requested when it reaches `max`. -/
theorem p_improving (d : DataModelCPDPTW) (manager : RoutingIndexManager) (fuel : Nat)
    (s s' : Tracker) (routing : RoutingModel) (stop : Bool)
    (hi : improves s routing.CostVar = some true)
    (h : p d manager fuel s routing = some (s', stop)) :
    s.i < s.objectives.length ∧ s' = ⟨s.i + 1, s.objectives.set s.i routing.CostVar⟩ ∧
      stop = decide (Cpdptw.max ≤ s.i + 1) := by
  unfold p at h
  simp only [hi] at h
  by_cases hlt : s.i < s.objectives.length
  · simp only [hlt, if_true] at h
    cases hp : (printSolution d manager routing none fuel).routes with
    | none => simp [hp] at h
    | some out =>
      simp only [hp, Option.some.injEq, Prod.mk.injEq] at h
      exact ⟨hlt, h.1.symm, h.2.symm⟩
  · simp [hlt] at h

/-- The other branch of `p`: nothing is written and the stop is requested when
the counter is already at `max`. -/
theorem p_not_improving (d : DataModelCPDPTW) (manager : RoutingIndexManager) (fuel : Nat)
    (s s' : Tracker) (routing : RoutingModel) (stop : Bool)
    (hi : improves s routing.CostVar = some false)
    (h : p d manager fuel s routing = some (s', stop)) :
    s' = s ∧ stop = decide (Cpdptw.max ≤ s.i) := by
  unfold p at h
  simp only [hi, Option.some.injEq, Prod.mk.injEq] at h
  exact ⟨h.1.symm, h.2.symm⟩

theorem p_improves_some (d : DataModelCPDPTW) (manager : RoutingIndexManager) (fuel : Nat)
    (s s' : Tracker) (routing : RoutingModel) (stop : Bool)
    (h : p d manager fuel s routing = some (s', stop)) :
    ∃ b, improves s routing.CostVar = some b := by
  unfold p at h
  cases hi : improves s routing.CostVar with
  | none => simp [hi] at h
  | some b => exact ⟨b, rfl⟩

/-- The trace of a tracker whose counter is positive ends in the entry just
below the counter. -/
theorem trace_eq_concat (s : Tracker) (last : Int) (hpos : s.i ≠ 0)
    (hlast : s.objectives[s.i - 1]? = some last) :
    s.trace = s.objectives.take (s.i - 1) ++ [last] := by
  unfold Tracker.trace
  obtain ⟨n, hn⟩ : ∃ n, s.i = n + 1 := ⟨s.i - 1, by omega⟩
  rw [hn] at hlast ⊢
  simp only [Nat.add_sub_cancel] at hlast ⊢
  rw [List.take_succ, hlast]
  rfl

/-- What the test of `p` means on the trace: the trace is empty, or the
objective is compared with its last entry. -/
theorem improves_spec (s : Tracker) (o : Int) (b : Bool) (h : improves s o = some b) :
    (b = true ↔ (s.trace = [] ∨ ∃ last, s.trace.getLast? = some last ∧ o < last)) := by
  unfold improves at h
  by_cases h0 : s.i = 0
  · simp only [h0, if_true, Option.some.injEq] at h
    subst h
    simp [Tracker.trace, h0]
  · simp only [h0, if_false] at h
    cases hl : s.objectives[s.i - 1]? with
    | none => simp [hl] at h
    | some last =>
      simp only [hl, Option.some.injEq] at h
      have ht := trace_eq_concat s last h0 hl
      rw [ht]
      subst h
      simp

/-- The invariant of the tracker: the array keeps its `max` cells, the counter
stays within it, and the recorded trace is strictly decreasing. -/
theorem p_invariant (d : DataModelCPDPTW) (manager : RoutingIndexManager) (fuel : Nat)
    (s s' : Tracker) (routing : RoutingModel) (stop : Bool)
    (hlen : s.objectives.length = Cpdptw.max) (hi : s.i ≤ Cpdptw.max)
    (hdec : s.trace.Pairwise (fun a b => b < a))
    (h : p d manager fuel s routing = some (s', stop)) :
    s'.objectives.length = Cpdptw.max ∧ s'.i ≤ Cpdptw.max ∧
      s'.trace.Pairwise (fun a b => b < a) := by
  obtain ⟨b, hb⟩ := p_improves_some d manager fuel s s' routing stop h
  cases b with
  | false =>
    obtain ⟨hs, _⟩ := p_not_improving d manager fuel s s' routing stop hb h
    subst hs
    exact ⟨hlen, hi, hdec⟩
  | true =>
    obtain ⟨hlt, hs, _⟩ := p_improving d manager fuel s s' routing stop hb h
    subst hs
    refine ⟨by simp [hlen], by simp only; omega, ?_⟩
    show ((s.objectives.set s.i routing.CostVar).take (s.i + 1)).Pairwise _
    rw [take_succ_set _ _ _ hlt, List.pairwise_append]
    refine ⟨hdec, by simp, ?_⟩
    intro a ha c hc
    simp only [List.mem_singleton] at hc
    subst hc
    unfold improves at hb
    by_cases h0 : s.i = 0
    · simp [h0] at ha
    · simp only [h0, if_false] at hb
      cases hl : s.objectives[s.i - 1]? with
      | none => simp [hl] at hb
      | some last =>
        simp only [hl, Option.some.injEq, decide_eq_true_eq] at hb
        have ht := trace_eq_concat s last h0 hl
        have hdec' := hdec
        rw [ht, List.pairwise_append] at hdec'
        have ha' : a ∈ s.trace := ha
        rw [ht, List.mem_append] at ha'
        rcases ha' with ha' | ha'
        · have := hdec'.2.2 a ha' last (by simp)
          omega
        · simp only [List.mem_singleton] at ha'
          omega

theorem init_invariant :
    Tracker.init.objectives.length = Cpdptw.max ∧ Tracker.init.i ≤ Cpdptw.max ∧
      Tracker.init.trace.Pairwise (fun a b => b < a) := by
  refine ⟨by simp [Tracker.init], by simp [Tracker.init], ?_⟩
  simp [Tracker.trace, Tracker.init]

theorem runFrom_invariant (d : DataModelCPDPTW) (manager : RoutingIndexManager) (fuel : Nat)
    (snapshots : List RoutingModel) (s s' : Tracker)
    (hlen : s.objectives.length = Cpdptw.max) (hi : s.i ≤ Cpdptw.max)
    (hdec : s.trace.Pairwise (fun a b => b < a))
    (h : runFrom d manager fuel s snapshots = some s') :
    s'.objectives.length = Cpdptw.max ∧ s'.i ≤ Cpdptw.max ∧
      s'.trace.Pairwise (fun a b => b < a) := by
  induction snapshots generalizing s with
  | nil =>
    simp only [runFrom, Option.some.injEq] at h
    subst h
    exact ⟨hlen, hi, hdec⟩
  | cons routing rest ih =>
    simp only [runFrom] at h
    cases hp : p d manager fuel s routing with
    | none => simp [hp] at h
    | some r =>
      obtain ⟨s1, stop⟩ := r
      simp only [hp] at h
      obtain ⟨h1, h2, h3⟩ := p_invariant d manager fuel s s1 routing stop hlen hi hdec hp
      exact ih s1 h1 h2 h3 h

theorem run_invariant (d : DataModelCPDPTW) (manager : RoutingIndexManager) (fuel : Nat)
    (snapshots : List RoutingModel) (s : Tracker)
    (h : run d manager fuel snapshots = some s) :
    s.objectives.length = Cpdptw.max ∧ s.i ≤ Cpdptw.max ∧
      s.trace.Pairwise (fun a b => b < a) :=
  runFrom_invariant d manager fuel snapshots Tracker.init s init_invariant.1
    init_invariant.2.1 init_invariant.2.2 h

theorem trace_length (s : Tracker) (hlen : s.i ≤ s.objectives.length) :
    s.trace.length = s.i := by
  simp [Tracker.trace, List.length_take, hlen]

/-! ## The solution callback: the specified properties -/

/-- C4: after any sequence of invocations of `p` from the initial tracker, the
recorded trace `objectives[0..i)` is strictly decreasing and has `i` entries.
A further invocation leaves a strictly decreasing trace; it appends its
objective and counts it when the trace is empty or the objective is strictly
below the last recorded entry, and otherwise leaves trace, array and counter
as they were. -/
theorem C4_trace_strictly_decreasing (d : DataModelCPDPTW) (manager : RoutingIndexManager)
    (fuel : Nat) (snapshots : List RoutingModel) (s : Tracker)
    (h : run d manager fuel snapshots = some s) :
    s.trace.Pairwise (fun a b => b < a) ∧ s.trace.length = s.i ∧
      ∀ (routing : RoutingModel) (s' : Tracker) (stop : Bool),
        p d manager fuel s routing = some (s', stop) →
        s'.trace.Pairwise (fun a b => b < a) ∧
        ((s.trace = [] ∨ ∃ last, s.trace.getLast? = some last ∧ routing.CostVar < last) →
          s'.trace = s.trace ++ [routing.CostVar] ∧ s'.i = s.i + 1) ∧
        (¬ (s.trace = [] ∨ ∃ last, s.trace.getLast? = some last ∧ routing.CostVar < last) →
          s' = s) := by
  obtain ⟨hlen, hi, hdec⟩ := run_invariant d manager fuel snapshots s h
  refine ⟨hdec, trace_length s (by omega), ?_⟩
  intro routing s' stop hp
  refine ⟨(p_invariant d manager fuel s s' routing stop hlen hi hdec hp).2.2, ?_, ?_⟩
  · intro hc
    obtain ⟨b, hb⟩ := p_improves_some d manager fuel s s' routing stop hp
    have hbt : b = true := (improves_spec s routing.CostVar b hb).2 hc
    subst hbt
    obtain ⟨hlt, hs, _⟩ := p_improving d manager fuel s s' routing stop hb hp
    subst hs
    exact ⟨take_succ_set _ _ _ hlt, rfl⟩
  · intro hc
    obtain ⟨b, hb⟩ := p_improves_some d manager fuel s s' routing stop hp
    cases b with
    | true => exact absurd ((improves_spec s routing.CostVar true hb).1 rfl) hc
    | false => exact (p_not_improving d manager fuel s s' routing stop hb hp).1

/-- C4 at the objectives 5, 5, 7, 3 on the example instance: the trace is 5, 3. -/
theorem C4_trace_strictly_decreasing_witness :
    (Tracker.mk 2 [5, 3, 0, 0, 0, 0, 0, 0, 0, 0, 0, 0, 0, 0, 0]).trace.Pairwise
      (fun a b => b < a) :=
  (C4_trace_strictly_decreasing data exampleManager 10
    ([5, 5, 7, 3].map exampleRouting)
    (Tracker.mk 2 [5, 3, 0, 0, 0, 0, 0, 0, 0, 0, 0, 0, 0, 0, 0]) (by decide)).1

/-- C5: after any sequence of invocations of `p` from the initial tracker, the
counter `i`, which is the length of the recorded trace, is at most
`max = 15`. -/
theorem C5_counter_at_most_max (d : DataModelCPDPTW) (manager : RoutingIndexManager)
    (fuel : Nat) (snapshots : List RoutingModel) (s : Tracker)
    (h : run d manager fuel snapshots = some s) :
    s.i ≤ Cpdptw.max ∧ s.trace.length = s.i ∧ Cpdptw.max = 15 := by
  obtain ⟨hlen, hi, _⟩ := run_invariant d manager fuel snapshots s h
  exact ⟨hi, trace_length s (by omega), rfl⟩

/-- C5 at fifteen falling objectives on the example instance: the counter
stands at 15. -/
theorem C5_counter_at_most_max_witness : (15 : Nat) ≤ Cpdptw.max :=
  (C5_counter_at_most_max data exampleManager 10
    ((List.range 15).map (fun k => exampleRouting (100 - k)))
    (Tracker.mk 15 [100, 99, 98, 97, 96, 95, 94, 93, 92, 91, 90, 89, 88, 87, 86])
    (by decide)).1

/-- C6: an invocation of `p` that follows any sequence of invocations from the
initial tracker calls `FinishCurrentSearch` exactly when the counter after its
update has reached `max`; so it does not while fewer than 15 objectives are
recorded, and it does on the invocation that records the fifteenth. -/
theorem C6_stop_iff_counter_reached_max (d : DataModelCPDPTW)
    (manager : RoutingIndexManager) (fuel : Nat) (snapshots : List RoutingModel)
    (s s' : Tracker) (routing : RoutingModel) (stop : Bool)
    (h : run d manager fuel snapshots = some s)
    (hp : p d manager fuel s routing = some (s', stop)) :
    (stop = true ↔ Cpdptw.max ≤ s'.i) ∧ (s'.trace.length < 15 → stop = false) ∧
      (s.trace.length = 14 → s'.trace.length = 15 → stop = true) := by
  obtain ⟨hlen, hi, hdec⟩ := run_invariant d manager fuel snapshots s h
  obtain ⟨hlen', hi', _⟩ := p_invariant d manager fuel s s' routing stop hlen hi hdec hp
  have hl : s.trace.length = s.i := trace_length s (by omega)
  have hl' : s'.trace.length = s'.i := trace_length s' (by omega)
  have key : stop = true ↔ Cpdptw.max ≤ s'.i := by
    obtain ⟨b, hb⟩ := p_improves_some d manager fuel s s' routing stop hp
    cases b with
    | true =>
      obtain ⟨_, hs, hstop⟩ := p_improving d manager fuel s s' routing stop hb hp
      subst hs
      simp [hstop]
    | false =>
      obtain ⟨hs, hstop⟩ := p_not_improving d manager fuel s s' routing stop hb hp
      subst hs
      simp [hstop]
  refine ⟨key, ?_, ?_⟩
  · intro hlt
    have : ¬ Cpdptw.max ≤ s'.i := by
      have : Cpdptw.max = 15 := rfl
      omega
    cases stop with
    | false => rfl
    | true => exact absurd (key.1 rfl) this
  · intro _ h15
    apply key.2
    have : Cpdptw.max = 15 := rfl
    omega

/-- C6 on the example instance: after fourteen falling objectives, the
invocation that records the fifteenth requests the stop. -/
theorem C6_stop_iff_counter_reached_max_witness :
    (true = true ↔ Cpdptw.max ≤ 15) :=
  (C6_stop_iff_counter_reached_max data exampleManager 10
    ((List.range 14).map (fun k => exampleRouting (100 - k)))
    (Tracker.mk 14 [100, 99, 98, 97, 96, 95, 94, 93, 92, 91, 90, 89, 88, 87, 0])
    (Tracker.mk 15 [100, 99, 98, 97, 96, 95, 94, 93, 92, 91, 90, 89, 88, 87, 86])
    (exampleRouting 86) true (by decide) (by decide)).1

/-- While the counter is below `max`, an invocation of `p` whose nested
`printSolution` returns does not fail: every index it uses is in range. -/
theorem p_returns_below_max (d : DataModelCPDPTW) (manager : RoutingIndexManager)
    (fuel : Nat) (s : Tracker) (routing : RoutingModel)
    (hlen : s.objectives.length = Cpdptw.max) (hi : s.i < Cpdptw.max)
    (hprint : (printSolution d manager routing none fuel).routes.isSome = true) :
    (p d manager fuel s routing).isSome = true := by
  obtain ⟨out, hout⟩ := Option.isSome_iff_exists.1 hprint
  have hread : ∃ b, improves s routing.CostVar = some b := by
    unfold improves
    by_cases h0 : s.i = 0
    · exact ⟨true, by simp [h0]⟩
    · have hlt : s.i - 1 < s.objectives.length := by omega
      simp only [h0, if_false, List.getElem?_eq_getElem hlt]
      exact ⟨_, rfl⟩
  obtain ⟨b, hb⟩ := hread
  unfold p
  cases b with
  | true => simp [hb, hout, hlen, hi]
  | false => simp [hb]

/-- Once the counter stands at `max`, an invocation with a strictly lower
objective writes `objectives[max]`, past the end of the array, and fails. -/
theorem p_fails_at_max (d : DataModelCPDPTW) (manager : RoutingIndexManager)
    (fuel : Nat) (s : Tracker) (routing : RoutingModel) (last : Int)
    (hlen : s.objectives.length = Cpdptw.max) (hi : s.i = Cpdptw.max)
    (hlast : s.objectives[Cpdptw.max - 1]? = some last) (hlow : routing.CostVar < last) :
    p d manager fuel s routing = none := by
  have h0 : s.i ≠ 0 := by rw [hi]; decide
  have hb : improves s routing.CostVar = some true := by
    unfold improves
    simp [h0, hi, hlast, hlow]
  unfold p
  simp [hb, hi, hlen]

/-- C10, the failing input: on the example instance fifteen falling objectives
100, 99, ..., 86 fill the array, and a sixteenth invocation with objective 85
fails on the write `objectives[15]`. -/
theorem C10_sixteenth_improvement_out_of_range :
    run data exampleManager 10 ((List.range 15).map (fun k => exampleRouting (100 - k)))
        = some (Tracker.mk 15 [100, 99, 98, 97, 96, 95, 94, 93, 92, 91, 90, 89, 88, 87, 86]) ∧
      p data exampleManager 10
        (Tracker.mk 15 [100, 99, 98, 97, 96, 95, 94, 93, 92, 91, 90, 89, 88, 87, 86])
        (exampleRouting 85) = none ∧
      run data exampleManager 10 ((List.range 16).map (fun k => exampleRouting (100 - k)))
        = none := by
  refine ⟨by decide, by decide, by decide⟩

/-! ## `printSolution`: the loops -/

theorem droppedLoop_eq (manager : RoutingIndexManager) (routing : RoutingModel)
    (a : Assignment) (n count : Nat) (dropped : List Int) :
    droppedLoop manager routing a n count dropped
      = dropped ++ ((List.range' n count).filter (fun j : Nat =>
          !routing.IsStart j && !routing.IsEnd j && decide (a.NextVar j = j))).map
            (fun j : Nat => manager.IndexToNode j) := by
  induction count generalizing n dropped with
  | zero => simp [droppedLoop]
  | succ k ih =>
    rw [droppedLoop, List.range'_succ, List.filter_cons]
    by_cases hse : (routing.IsStart n || routing.IsEnd n) = true
    · have hf : (!routing.IsStart n && !routing.IsEnd n && decide (a.NextVar n = n))
          = false := by
        rcases Bool.or_eq_true _ _ ▸ hse with h | h <;> simp [h]
      rw [if_pos hse, hf, ih]
      simp
    · have hs : routing.IsStart n = false := by
        cases h : routing.IsStart n with
        | false => rfl
        | true => simp [h] at hse
      have he : routing.IsEnd n = false := by
        cases h : routing.IsEnd n with
        | false => rfl
        | true => simp [h] at hse
      rw [if_neg hse]
      by_cases hn : a.NextVar n = n
      · rw [if_pos hn, ih]
        simp [hs, he, hn]
      · rw [if_neg hn, ih]
        simp [hs, he, hn]

/-- The loop of a route along a chain of successors that reaches an end index
after `k` steps and not before: with more than `k` rounds of fuel it stops at
that index, having added one record per index before it. -/
theorem walk_chain (manager : RoutingIndexManager) (routing : RoutingModel) (a : Assignment)
    (k fuel : Nat) (index : Int) (route : List Record)
    (hchain : ∀ j, j < k → routing.IsEnd (a.NextVar^[j] index) = false)
    (hend : routing.IsEnd (a.NextVar^[k] index) = true) (hfuel : k < fuel) :
    walk manager routing a fuel index route
      = some (a.NextVar^[k] index,
          route ++ (List.range k).map (fun j => visitRecord manager a (a.NextVar^[j] index))) := by
  induction k generalizing fuel index route with
  | zero =>
    obtain ⟨f, hf⟩ : ∃ f, fuel = f + 1 := ⟨fuel - 1, by omega⟩
    subst hf
    simp only [Function.iterate_zero, id_eq] at hend
    simp [walk, hend]
  | succ n ih =>
    obtain ⟨f, hf⟩ : ∃ f, fuel = f + 1 := ⟨fuel - 1, by omega⟩
    subst hf
    have h0 : routing.IsEnd index = false := by
      have := hchain 0 (by omega)
      simpa using this
    have hstep := ih f (a.NextVar index) (route ++ [visitRecord manager a index])
      (fun j hj => by
        have := hchain (j + 1) (by omega)
        rwa [Function.iterate_succ_apply] at this)
      (by rwa [Function.iterate_succ_apply] at hend) (by omega)
    rw [walk]
    simp only [h0, Bool.false_eq_true, if_false]
    rw [hstep, Function.iterate_succ_apply, List.range_succ_eq_map, List.map_cons,
      List.map_map]
    simp [Function.comp_def, Function.iterate_succ_apply]

/-- The loop of a route reads the slack bounds at indices that are not ends
only: two assignments that agree on everything but the slack bounds at end
indices give the same loop. -/
theorem walk_congr (manager : RoutingIndexManager) (routing : RoutingModel)
    (a b : Assignment) (hn : b.NextVar = a.NextVar) (hmin : b.TimeMin = a.TimeMin)
    (hmax : b.TimeMax = a.TimeMax) (hcap : b.Capacity = a.Capacity)
    (hslack : ∀ index, routing.IsEnd index = false →
      b.SlackMin index = a.SlackMin index ∧ b.SlackMax index = a.SlackMax index)
    (fuel : Nat) (index : Int) (route : List Record) :
    walk manager routing b fuel index route = walk manager routing a fuel index route := by
  induction fuel generalizing index route with
  | zero => simp [walk]
  | succ f ih =>
    rw [walk, walk]
    by_cases he : routing.IsEnd index = true
    · simp [he]
    · have he' : routing.IsEnd index = false := by
        cases h : routing.IsEnd index with
        | false => rfl
        | true => exact absurd h he
      have hrec : visitRecord manager b index = visitRecord manager a index := by
        simp [visitRecord, hmin, hmax, hcap, (hslack index he').1, (hslack index he').2]
      simp only [he', Bool.false_eq_true, if_false, hrec, hn]
      exact ih _ _

theorem routesLoop_spec (manager : RoutingIndexManager) (routing : RoutingModel)
    (a : Assignment) (fuel vehicleId count : Nat) (routes routes' : List (List Record))
    (totalTime totalLoad totalTime' totalLoad' : Int)
    (h : routesLoop manager routing a fuel vehicleId count (routes, totalTime, totalLoad)
      = some (routes', totalTime', totalLoad')) :
    ∃ extra, routes' = routes ++ extra ∧ extra.length = count ∧
      ∀ j, j < count → ∃ records tMin capacity,
        vehicleRoute manager routing a fuel (vehicleId + j) = some (records, tMin, capacity) ∧
          extra[j]? = some records := by
  induction count generalizing vehicleId routes totalTime totalLoad with
  | zero =>
    simp only [routesLoop, Option.some.injEq, Prod.mk.injEq] at h
    exact ⟨[], by simp [h.1], rfl, fun j hj => by omega⟩
  | succ n ih =>
    rw [routesLoop] at h
    cases hv : vehicleRoute manager routing a fuel vehicleId with
    | none => simp [hv] at h
    | some r =>
      obtain ⟨records, tMin, capacity⟩ := r
      simp only [hv] at h
      obtain ⟨extra, h1, h2, h3⟩ := ih (vehicleId + 1) (routes ++ [records]) _ _ h
      refine ⟨records :: extra, by simp [h1], by simp [h2], ?_⟩
      intro j hj
      cases j with
      | zero => exact ⟨records, tMin, capacity, by simpa using hv, by simp⟩
      | succ i =>
        obtain ⟨rec, t, c, e1, e2⟩ := h3 i (by omega)
        refine ⟨rec, t, c, ?_, by simpa using e2⟩
        have : vehicleId + (i + 1) = vehicleId + 1 + i := by omega
        rw [this]
        exact e1

theorem printSolution_dropped (d : DataModelCPDPTW) (manager : RoutingIndexManager)
    (routing : RoutingModel) (solution : Option Assignment) (fuel : Nat) :
    (printSolution d manager routing solution fuel).dropped
      = droppedLoop manager routing (solution.getD routing.live) 0 routing.Size.toNat [] := by
  unfold printSolution
  cases solution with
  | none =>
    simp only [Option.getD_none]
    cases routesLoop manager routing routing.live fuel 0
      d.vehicleCapacities.length ([], 0, 0) <;> rfl
  | some s =>
    simp only [Option.getD_some]
    cases routesLoop manager routing s fuel 0 d.vehicleCapacities.length ([], 0, 0) <;> rfl

theorem printSolution_routes (d : DataModelCPDPTW) (manager : RoutingIndexManager)
    (routing : RoutingModel) (solution : Option Assignment) (fuel : Nat) (shown : Routes)
    (h : (printSolution d manager routing solution fuel).routes = some shown) :
    routesLoop manager routing (solution.getD routing.live) fuel 0
        d.vehicleCapacities.length ([], 0, 0)
      = some (shown.routes, shown.totalTime, shown.totalLoad) := by
  have key : (printSolution d manager routing solution fuel).routes
      = (routesLoop manager routing (solution.getD routing.live) fuel 0
          d.vehicleCapacities.length ([], 0, 0)).map
            (fun r => Routes.mk r.1 r.2.1 r.2.2) := by
    unfold printSolution
    cases solution with
    | none =>
      simp only [Option.getD_none]
      cases routesLoop manager routing routing.live fuel 0
        d.vehicleCapacities.length ([], 0, 0) <;> rfl
    | some s =>
      simp only [Option.getD_some]
      cases routesLoop manager routing s fuel 0 d.vehicleCapacities.length ([], 0, 0) <;> rfl
  rw [key] at h
  cases hl : routesLoop manager routing (solution.getD routing.live) fuel 0
      d.vehicleCapacities.length ([], 0, 0) with
  | none =>
    rw [hl] at h
    simp at h
  | some r =>
    rw [hl] at h
    simp only [Option.map_some', Option.some.injEq] at h
    rw [← h]

/-! ## `printSolution`: the specified properties -/

/-- C7: for every vehicle and every assignment in which `k` steps along the
successors from `Start(v)` reach an index satisfying `IsEnd` for the first
time, the walk of `printSolution` for that vehicle comes to an end, with any
fuel above `k`, and gives `k + 1` records in chain order: for each of the `k`
indices before the end its location id, Time cumulative bounds, Time slack
bounds and load, then for the end index its location id, Time cumulative
bounds and load.  The slack bounds at end indices are not read: changing them
changes nothing.  When the whole display of the routes comes to an end, these
records are its entry for the vehicle. -/
theorem C7_route_records (manager : RoutingIndexManager) (routing : RoutingModel)
    (a : Assignment) (vehicleId k fuel : Nat)
    (hchain : ∀ j, j < k → routing.IsEnd (a.NextVar^[j] (routing.Start vehicleId)) = false)
    (hend : routing.IsEnd (a.NextVar^[k] (routing.Start vehicleId)) = true)
    (hfuel : k < fuel) :
    vehicleRoute manager routing a fuel vehicleId
        = some ((List.range k).map
              (fun j => visitRecord manager a (a.NextVar^[j] (routing.Start vehicleId)))
            ++ [finalRecord manager a (a.NextVar^[k] (routing.Start vehicleId))],
          a.TimeMin (a.NextVar^[k] (routing.Start vehicleId)),
          a.Capacity (a.NextVar^[k] (routing.Start vehicleId))) ∧
      ((List.range k).map
          (fun j => visitRecord manager a (a.NextVar^[j] (routing.Start vehicleId)))
        ++ [finalRecord manager a (a.NextVar^[k] (routing.Start vehicleId))]).length
          = k + 1 ∧
      (∀ b : Assignment, b.NextVar = a.NextVar → b.TimeMin = a.TimeMin →
        b.TimeMax = a.TimeMax → b.Capacity = a.Capacity →
        (∀ index, routing.IsEnd index = false →
          b.SlackMin index = a.SlackMin index ∧ b.SlackMax index = a.SlackMax index) →
        vehicleRoute manager routing b fuel vehicleId
          = vehicleRoute manager routing a fuel vehicleId) ∧
      (∀ (d : DataModelCPDPTW) (solution : Option Assignment) (shown : Routes),
        solution.getD routing.live = a → vehicleId < d.vehicleCapacities.length →
        (printSolution d manager routing solution fuel).routes = some shown →
        shown.routes[vehicleId]?
          = some ((List.range k).map
              (fun j => visitRecord manager a (a.NextVar^[j] (routing.Start vehicleId)))
            ++ [finalRecord manager a (a.NextVar^[k] (routing.Start vehicleId))])) := by
  have hwalk := walk_chain manager routing a k fuel (routing.Start vehicleId) []
    hchain hend hfuel
  have hroute : vehicleRoute manager routing a fuel vehicleId
      = some ((List.range k).map
            (fun j => visitRecord manager a (a.NextVar^[j] (routing.Start vehicleId)))
          ++ [finalRecord manager a (a.NextVar^[k] (routing.Start vehicleId))],
        a.TimeMin (a.NextVar^[k] (routing.Start vehicleId)),
        a.Capacity (a.NextVar^[k] (routing.Start vehicleId))) := by
    unfold vehicleRoute
    rw [hwalk]
    simp
  refine ⟨hroute, by simp, ?_, ?_⟩
  · intro b hn hmin hmax hcap hslack
    unfold vehicleRoute
    rw [walk_congr manager routing a b hn hmin hmax hcap hslack]
    cases walk manager routing a fuel (routing.Start vehicleId) [] with
    | none => rfl
    | some r =>
      obtain ⟨index, route⟩ := r
      simp [finalRecord, hmin, hmax, hcap]
  · intro d solution shown hsol hv hshown
    have hloop := printSolution_routes d manager routing solution fuel shown hshown
    rw [hsol] at hloop
    obtain ⟨extra, h1, _, h3⟩ := routesLoop_spec manager routing a fuel 0
      d.vehicleCapacities.length [] shown.routes 0 0 shown.totalTime shown.totalLoad hloop
    obtain ⟨records, tMin, capacity, e1, e2⟩ := h3 vehicleId hv
    rw [Nat.zero_add, hroute] at e1
    simp only [Option.some.injEq, Prod.mk.injEq] at e1
    rw [h1, List.nil_append, e2, ← e1.1]

/-- C7 on the example instance: vehicle 0 goes 0, 6, 2 and ends at index 20,
which gives three records with slack and a last one without. -/
theorem C7_route_records_witness :
    vehicleRoute exampleManager (exampleRouting 0) exampleAssignment 10 0
      = some ([Record.visit 0 0 2 0 1 0, Record.visit 6 6 8 0 1 0,
          Record.visit 2 10 12 0 1 1, Record.final 0 19 21 0], 19, 0) :=
  (C7_route_records exampleManager (exampleRouting 0) exampleAssignment 0 3 10
    (by decide) (by decide) (by decide)).1

/-- C8: for every assignment, nil or not, the dropped list of `printSolution`
is the list of the location ids `IndexToNode(n)`, in increasing order of `n`,
of the indices `n` from 0 below `routing.Size()` that are neither a start nor
an end and whose successor is `n` itself.  A location id is in the list
exactly when it belongs to such an index. -/
theorem C8_dropped_list (d : DataModelCPDPTW) (manager : RoutingIndexManager)
    (routing : RoutingModel) (solution : Option Assignment) (fuel : Nat) :
    (printSolution d manager routing solution fuel).dropped
        = ((List.range routing.Size.toNat).filter (fun n : Nat =>
            !routing.IsStart n && !routing.IsEnd n &&
              decide ((solution.getD routing.live).NextVar n = n))).map
            (fun n : Nat => manager.IndexToNode n) ∧
      ∀ node : Int, node ∈ (printSolution d manager routing solution fuel).dropped ↔
        ∃ n : Nat, (n : Int) < routing.Size ∧ routing.IsStart n = false ∧
          routing.IsEnd n = false ∧ (solution.getD routing.live).NextVar n = n ∧
          node = manager.IndexToNode n := by
  have hd := printSolution_dropped d manager routing solution fuel
  have heq : (printSolution d manager routing solution fuel).dropped
      = ((List.range routing.Size.toNat).filter (fun n : Nat =>
          !routing.IsStart n && !routing.IsEnd n &&
            decide ((solution.getD routing.live).NextVar n = n))).map
          (fun n : Nat => manager.IndexToNode n) := by
    rw [hd, droppedLoop_eq, List.nil_append, List.range_eq_range']
  refine ⟨heq, ?_⟩
  intro node
  rw [heq]
  simp only [List.mem_map, List.mem_filter, List.mem_range, Bool.and_eq_true,
    Bool.not_eq_true', decide_eq_true_eq]
  constructor
  · rintro ⟨n, ⟨hn, ⟨hs, he⟩, hnext⟩, hnode⟩
    exact ⟨n, by omega, hs, he, hnext, hnode.symm⟩
  · rintro ⟨n, hn, hs, he, hnext, hnode⟩
    exact ⟨n, ⟨by omega, ⟨hs, he⟩, hnext⟩, hnode.symm⟩

end Cpdptw
